import Mathlib

/-!
Shallow embedding of the GIU-Scheduler scheduling engine.

The definitions below translate, method by method, the Python modules
`backend/models.py`, `backend/policy_validator.py`, `course_scheduler.py`,
`backend/global_scheduler.py`, `conflict_resolver.py`, `scheduler.py` and the
backtracking driver of `backend/simple_main.py`.

Modelling conventions:
* Python `int` is `Int`; Python floor division `//` is `Int.fdiv`; Python true
  division (only used for scores and ratios of small integers) is modelled by
  exact rational division in `ℚ` (`q / 0 = 0` in Lean, where Python would raise
  `ZeroDivisionError`; no claim depends on that case).
* A TA's mutable `current_assignments` dict (`course_id -> [slots]`) is
  externalised into an explicit state `AState` keyed by `ta.id`, mirroring the
  Python object graph under the aliasing discipline the code relies on (TA
  objects are shared, so all occurrences of one `ta.id` denote one object).
* Python dicts are insertion-ordered association lists; `dict[k] = v` replaces
  the first binding of `k` in place or appends a new one.  Python sets are
  modelled as lists with membership tests (the engine only tests membership and
  emptiness of the sets it builds, so iteration order never matters to the
  properties proved here).
* `sorted(xs, key=f)` is the stable sort `List.mergeSort` with the boolean
  relation `f a ≤ f b`; `max(xs, key=f)` / `min(xs, key=f)` keep the first
  maximal / minimal element, as in CPython.
* Violation message strings are reproduced only up to their dynamic parts; all
  claims consume the violation lists through emptiness or length only.
-/

namespace GIU

inductive Day
  | saturday | sunday | monday | tuesday | wednesday | thursday
deriving DecidableEq, Repr

inductive SlotType
  | tutorial | lab
deriving DecidableEq, Repr

/-- `models.TimeSlot`: dataclass `(day, slot_number, slot_type, duration=2)`.
Dataclass equality compares all four fields. -/
structure TimeSlot where
  day : Day
  slotNumber : Int
  slotType : SlotType
  duration : Int := 2
deriving DecidableEq, Repr

/-- `models.TA`, immutable part.  The mutable `current_assignments` dict lives
in the external state `AState` below. -/
structure TA where
  id : String
  name : String
  maxWeeklyHours : Int
  availableSlots : List TimeSlot := []
  preferredSlots : List (TimeSlot × Int) := []
deriving DecidableEq, Repr

/-- `models.Course` (the unused `schedule` field is omitted). -/
structure Course where
  id : String
  name : String
  requiredSlots : List TimeSlot := []
  assignedTAs : List TA := []
deriving DecidableEq, Repr

/-- `models.SchedulingPolicies`. -/
structure SchedulingPolicies where
  tutorialLabIndependence : Bool := false
  tutorialLabEqualCount : Bool := false
  tutorialLabNumberMatching : Bool := false
  fairnessMode : Bool := false
deriving DecidableEq, Repr

/-- `models.ScheduleAssignment`. -/
structure ScheduleAssignment where
  ta : TA
  slot : TimeSlot
  course : Course
deriving DecidableEq, Repr

/-- The external image of every TA's `current_assignments` dict:
`ta.id -> (course_id -> assigned slots)`. -/
abbrev CourseMap := List (String × List TimeSlot)
abbrev AState := List (String × CourseMap)

/-- Association-list lookup (first binding wins, like a Python dict). -/
def alookup {β : Type} (m : List (String × β)) (k : String) : Option β :=
  match m with
  | [] => none
  | (k', v) :: rest => if k' = k then some v else alookup rest k

/-- `d[k] = v` on a Python dict: replace the first binding in place, else
append. -/
def aset {β : Type} (m : List (String × β)) (k : String) (v : β) :
    List (String × β) :=
  match m with
  | [] => [(k, v)]
  | (k', v') :: rest =>
      if k' = k then (k', v) :: rest else (k', v') :: aset rest k v

/-- The `course_id -> slots` map of one TA (missing TA ⇒ empty dict, matching a
freshly reset `current_assignments`). -/
def taCourseMap (σ : AState) (taId : String) : CourseMap :=
  (alookup σ taId).getD []

/-- `TA.get_total_assigned_hours`. -/
def totalAssignedHours (σ : AState) (taId : String) : Int :=
  ((taCourseMap σ taId).map fun e => (e.2.map TimeSlot.duration).sum).sum

/-- `TA.get_remaining_capacity`. -/
def remainingCapacity (ta : TA) (σ : AState) : Int :=
  ta.maxWeeklyHours - totalAssignedHours σ ta.id

/-- `TA.has_conflict`. -/
def hasConflict (σ : AState) (taId : String) (slot : TimeSlot) : Bool :=
  (taCourseMap σ taId).any fun e =>
    e.2.any fun s => s.day = slot.day && s.slotNumber = slot.slotNumber

/-- `TA.is_available_for_slot`. -/
def isAvailableForSlot (ta : TA) (σ : AState) (slot : TimeSlot) : Bool :=
  decide (slot ∈ ta.availableSlots) && !hasConflict σ ta.id slot

/-- `ta.current_assignments[course_id] = slots`. -/
def setCourseSlots (σ : AState) (taId courseId : String)
    (slots : List TimeSlot) : AState :=
  aset σ taId (aset (taCourseMap σ taId) courseId slots)

/-- `Course.get_total_hours`. -/
def Course.getTotalHours (c : Course) : Int :=
  (c.requiredSlots.map TimeSlot.duration).sum

namespace PolicyValidator

/-- `PolicyValidator._check_equal_count_policy`. -/
def checkEqualCountPolicy (slots : List TimeSlot) : List String :=
  let tutorialCount := (slots.filter fun s => s.slotType = .tutorial).length
  let labCount := (slots.filter fun s => s.slotType = .lab).length
  if tutorialCount ≠ labCount then
    [s!"Equal count policy violation: {tutorialCount} tutorials vs {labCount} labs"]
  else []

/-- Tutorial slot numbers of a proposed set (the Python code collects them into
a set; emptiness of set differences is all that is ever consumed). -/
def tutorialNumbers (slots : List TimeSlot) : List Int :=
  (slots.filter fun s => s.slotType = .tutorial).map TimeSlot.slotNumber

/-- Lab slot numbers (Python's `else` branch: every non-tutorial slot). -/
def labNumbers (slots : List TimeSlot) : List Int :=
  (slots.filter fun s => ¬ s.slotType = .tutorial).map TimeSlot.slotNumber

/-- `PolicyValidator._check_number_matching_policy`. -/
def checkNumberMatchingPolicy (slots : List TimeSlot) : List String :=
  (if (tutorialNumbers slots).any fun n => decide (n ∉ labNumbers slots) then
    ["Number matching policy violation: tutorials have no matching labs"]
  else []) ++
  (if (labNumbers slots).any fun n => decide (n ∉ tutorialNumbers slots) then
    ["Number matching policy violation: labs have no matching tutorials"]
  else [])

/-- `PolicyValidator.validate_assignment`. -/
def validateAssignment (pol : SchedulingPolicies) (_ta : TA) (_course : Course)
    (proposedSlots : List TimeSlot) : Bool × List String :=
  let violations :=
    if !pol.tutorialLabIndependence then
      (if pol.tutorialLabEqualCount then checkEqualCountPolicy proposedSlots
       else []) ++
      (if pol.tutorialLabNumberMatching then
        checkNumberMatchingPolicy proposedSlots
       else [])
    else []
  (violations.length = 0, violations)

/-- `PolicyValidator._has_parallel_conflicts`: two slots of a combination share
a `(day, slot_number)` pair. -/
def hasParallelConflicts (slots : List TimeSlot) : Bool :=
  !decide ((slots.map fun s => (s.day, s.slotNumber)).Nodup)

/-- `itertools.combinations(xs, r)`: the length-`r` sublists (order-preserving
selections).  `List.sublistsLen` enumerates the same collection. -/
def combosLen (r : Nat) (xs : List TimeSlot) : List (List TimeSlot) :=
  List.sublistsLen r xs

/-- `PolicyValidator._generate_independent_combinations`. -/
def generateIndependentCombinations (availableSlots : List TimeSlot)
    (maxSlots : Int) : List (List TimeSlot) :=
  (List.range' 1 (min maxSlots.toNat availableSlots.length)).flatMap fun r =>
    (combosLen r availableSlots).filter fun combo => !hasParallelConflicts combo

/-- The tutorials / labs split of `_generate_equal_count_combinations`. -/
def tutorialsOf (availableSlots : List TimeSlot) : List TimeSlot :=
  availableSlots.filter fun s => s.slotType = .tutorial

def labsOf (availableSlots : List TimeSlot) : List TimeSlot :=
  availableSlots.filter fun s => s.slotType = .lab

/-- `max_pairs = min(len(tutorials), len(labs), max_slots // 2)`. -/
def maxPairsOf (availableSlots : List TimeSlot) (maxSlots : Int) : Int :=
  min (min ((tutorialsOf availableSlots).length : Int)
    ((labsOf availableSlots).length : Int)) (maxSlots.fdiv 2)

/-- `PolicyValidator._generate_equal_count_combinations`. -/
def generateEqualCountCombinations (availableSlots : List TimeSlot)
    (maxSlots : Int) : List (List TimeSlot) :=
  (List.range' 1 (maxPairsOf availableSlots maxSlots).toNat).flatMap
    fun pairCount =>
      (combosLen pairCount (tutorialsOf availableSlots)).flatMap
        fun tutorialCombo =>
          (combosLen pairCount (labsOf availableSlots)).filterMap
            fun labCombo =>
              if ((tutorialCombo ++ labCombo).length : Int) ≤ maxSlots &&
                  !hasParallelConflicts (tutorialCombo ++ labCombo) then
                some (tutorialCombo ++ labCombo)
              else none

/-- Python dict comprehension `{slot.slot_number: slot for slot in ...}`:
later bindings overwrite earlier ones. -/
def numberDict (slots : List TimeSlot) : List (Int × TimeSlot) :=
  slots.foldl (fun d s =>
    if d.any fun e => e.1 = s.slotNumber then
      d.map fun e => if e.1 = s.slotNumber then (e.1, s) else e
    else d ++ [(s.slotNumber, s)]) []

def numberLookup (d : List (Int × TimeSlot)) (n : Int) : Option TimeSlot :=
  (d.find? fun e => e.1 = n).map Prod.snd

/-- The `{slot_number: slot}` dicts of `_generate_number_matching_combinations`
(the labs dict collects every non-tutorial slot, Python's `else` branch). -/
def tutorialDictOf (availableSlots : List TimeSlot) : List (Int × TimeSlot) :=
  numberDict (availableSlots.filter fun s => s.slotType = .tutorial)

def labDictOf (availableSlots : List TimeSlot) : List (Int × TimeSlot) :=
  numberDict (availableSlots.filter fun s => ¬ s.slotType = .tutorial)

/-- `matching_numbers = set(tutorials.keys()) & set(labs.keys())`. -/
def matchingNumbersOf (availableSlots : List TimeSlot) : List Int :=
  ((tutorialDictOf availableSlots).map Prod.fst).filter fun n =>
    ((labDictOf availableSlots).map Prod.fst).contains n

/-- The tutorial-lab pair list built for one combination of numbers. -/
def pairsForNumbers (availableSlots : List TimeSlot) (numberCombo : List Int) :
    List TimeSlot :=
  numberCombo.flatMap fun n =>
    (numberLookup (tutorialDictOf availableSlots) n).toList ++
      (numberLookup (labDictOf availableSlots) n).toList

/-- `PolicyValidator._generate_number_matching_combinations`.  Python iterates
the set `tutorials.keys() & labs.keys()` in unspecified hash order; the model
fixes the tutorial-key order (every claim that touches this function is
insensitive to that order). -/
def generateNumberMatchingCombinations (availableSlots : List TimeSlot)
    (maxSlots : Int) : List (List TimeSlot) :=
  if (matchingNumbersOf availableSlots).isEmpty then []
  else
    (List.range' 1 (min ((matchingNumbersOf availableSlots).length : Int)
        (maxSlots.fdiv 2)).toNat).flatMap fun pairCount =>
      (List.sublistsLen pairCount (matchingNumbersOf availableSlots)).filterMap
        fun numberCombo =>
          if ((pairsForNumbers availableSlots numberCombo).length : Int) ≤
              maxSlots &&
              !hasParallelConflicts (pairsForNumbers availableSlots numberCombo)
            then some (pairsForNumbers availableSlots numberCombo)
          else none

/-- `available_slots = [slot for slot in course.required_slots if
ta.is_available_for_slot(slot)]`. -/
def availableSlotsFor (ta : TA) (σ : AState) (course : Course) :
    List TimeSlot :=
  course.requiredSlots.filter fun slot => isAvailableForSlot ta σ slot

/-- `PolicyValidator.get_valid_slot_combinations`. -/
def getValidSlotCombinations (pol : SchedulingPolicies) (ta : TA) (σ : AState)
    (course : Course) (maxSlots : Int) : List (List TimeSlot) :=
  if (availableSlotsFor ta σ course).isEmpty then []
  else if pol.tutorialLabIndependence then
    generateIndependentCombinations (availableSlotsFor ta σ course) maxSlots
  else if pol.tutorialLabEqualCount && pol.tutorialLabNumberMatching then
    (generateEqualCountCombinations (availableSlotsFor ta σ course)
      maxSlots).filter fun combo => (checkNumberMatchingPolicy combo).isEmpty
  else if pol.tutorialLabEqualCount then
    generateEqualCountCombinations (availableSlotsFor ta σ course) maxSlots
  else if pol.tutorialLabNumberMatching then
    generateNumberMatchingCombinations (availableSlotsFor ta σ course) maxSlots
  else
    generateIndependentCombinations (availableSlotsFor ta σ course) maxSlots

end PolicyValidator

/-- `sorted(xs, key=f)` for a key into a linear order: CPython's sort is THE
stable sort by the key (the stable sorted permutation of a list under a total
preorder is unique), which `List.insertionSort` implements for the relation
`f a ≤ f b`. -/
def sortByKey {α κ : Type} [LinearOrder κ] (f : α → κ) (xs : List α) :
    List α :=
  xs.insertionSort fun a b => f a ≤ f b

/-- `max(xs, key=f)` on a non-empty list keeps the first maximal element:
CPython replaces the running maximum only on a strictly greater key. -/
def maxByFirst {α κ : Type} [LinearOrder κ] (f : α → κ) (x : α) (xs : List α) :
    α :=
  xs.foldl (fun best c => if f c > f best then c else best) x

/-- `min(xs, key=f)` keeps the first minimal element. -/
def minByFirst {α κ : Type} [LinearOrder κ] (f : α → κ) (x : α) (xs : List α) :
    α :=
  xs.foldl (fun best c => if f c < f best then c else best) x

/-- `slot in ta.preferred_slots` / `ta.preferred_slots[slot]`. -/
def prefRank (ta : TA) (slot : TimeSlot) : Option Int :=
  (ta.preferredSlots.find? fun e => e.1 = slot).map Prod.snd

namespace CourseScheduler

open PolicyValidator

/-- The scoring closure of `CourseScheduler._select_best_combination`:
per-slot preference score (`max(0, 10 - rank)`, default 5 for a slot without a
recorded preference) plus the size bonus `0.5 * len(combo)`. -/
def scoreCombination (ta : TA) (combo : List TimeSlot) : ℚ :=
  (combo.map fun slot =>
    match prefRank ta slot with
    | some rank => (max 0 (10 - rank) : ℚ)
    | none => 5).sum + (combo.length : ℚ) * (1 / 2)

/-- `CourseScheduler._select_best_combination`. -/
def selectBestCombination (ta : TA) (combinations : List (List TimeSlot)) :
    List TimeSlot :=
  match combinations with
  | [] => []
  | c :: rest => maxByFirst (scoreCombination ta) c rest

/-- `CourseScheduler._sort_slots_by_difficulty`: stable sort by the key
`-available_count` (ascending). -/
def sortSlotsByDifficulty (slots : List TimeSlot) (tas : List TA)
    (σ : AState) : List TimeSlot :=
  sortByKey (fun slot =>
    -((tas.filter fun ta => isAvailableForSlot ta σ slot).length : Int)) slots

/-- Intermediate state of one strategy pass:
`(assignments, violations, unassigned_slots, TA state)`. -/
structure PassState where
  assignments : List ScheduleAssignment
  violations : List String
  unassigned : List TimeSlot
  σ : AState

/-- One iteration of the greedy slot-taking loop
(`for slot in best_combination: if slot in unassigned_slots: ...`); the
accumulator is `(assignments, assigned_slots, unassigned_slots)`. -/
def takeSlot (ta : TA) (course : Course)
    (acc : List ScheduleAssignment × List TimeSlot × List TimeSlot)
    (slot : TimeSlot) :
    List ScheduleAssignment × List TimeSlot × List TimeSlot :=
  if slot ∈ acc.2.2 then
    (acc.1 ++ [⟨ta, slot, course⟩], acc.2.1 ++ [slot], acc.2.2.erase slot)
  else acc

/-- `max_assignable_slots = ta.get_remaining_capacity() // 2`. -/
def maxAssignableSlots (ta : TA) (σ : AState) : Int :=
  (remainingCapacity ta σ).fdiv 2

/-- The walk over the selected best combination: assignments created for the
slots still unassigned, the `assigned_slots` list, and the shrunken
`unassigned_slots` pool. -/
def greedyTake (pol : SchedulingPolicies) (course : Course) (st : PassState)
    (ta : TA) :
    List ScheduleAssignment × List TimeSlot × List TimeSlot :=
  (selectBestCombination ta (getValidSlotCombinations pol ta st.σ course
      (maxAssignableSlots ta st.σ))).foldl
    (takeSlot ta course) ([], [], st.unassigned)

/-- Body of the greedy per-TA loop (`CourseScheduler._schedule_greedy`,
one iteration of `for ta in course.assigned_tas`). -/
def greedyStep (pol : SchedulingPolicies) (course : Course) (st : PassState)
    (ta : TA) : PassState :=
  if remainingCapacity ta st.σ < 2 then st
  else if (getValidSlotCombinations pol ta st.σ course
      (maxAssignableSlots ta st.σ)).isEmpty then st
  else
    { assignments := st.assignments ++ (greedyTake pol course st ta).1
      violations := st.violations ++
        (if !((greedyTake pol course st ta).2.1).isEmpty then
          (if !(validateAssignment pol ta course
              ((greedyTake pol course st ta).2.1)).1 then
            (validateAssignment pol ta course
              ((greedyTake pol course st ta).2.1)).2
          else [])
        else [])
      unassigned := (greedyTake pol course st ta).2.2
      σ := setCourseSlots st.σ ta.id course.id
        ((greedyTake pol course st ta).2.1) }

/-- `CourseScheduler._schedule_greedy`. -/
def scheduleGreedy (pol : SchedulingPolicies) (course : Course)
    (unassignedSlots : List TimeSlot) (σ : AState) : PassState :=
  course.assignedTAs.foldl (greedyStep pol course)
    { assignments := [], violations := [], unassigned := unassignedSlots, σ := σ }

/-- The per-course tally `assignments_per_ta` of the fairness loop
(`{ta.id: [] for ta in available_tas}` then appended to). -/
abbrev PerTA := List (String × List TimeSlot)

def perTALookup (m : PerTA) (taId : String) : List TimeSlot :=
  (alookup m taId).getD []

def perTAAppend (m : PerTA) (taId : String) (slot : TimeSlot) : PerTA :=
  aset m taId (perTALookup m taId ++ [slot])

/-- Body of the fairness per-slot loop
(`CourseScheduler._schedule_with_fairness`).  Note that during the loop TA
availability is checked against the state `σ` as it was when the course started
(`current_assignments` is only written after the loop). -/
def fairnessStep (availableTAs : List TA) (targetHoursPerTA : Int)
    (course : Course) (σ : AState)
    (st : List ScheduleAssignment × PerTA × List TimeSlot) (slot : TimeSlot) :
    List ScheduleAssignment × PerTA × List TimeSlot :=
  let (assignments, perTA, unassigned) := st
  if slot ∉ unassigned then st
  else
    let eligible := availableTAs.filter fun ta =>
      isAvailableForSlot ta σ slot &&
        decide ((perTALookup perTA ta.id).length * 2 < targetHoursPerTA + 2)
    let eligible :=
      if eligible.isEmpty then
        availableTAs.filter fun ta => isAvailableForSlot ta σ slot
      else eligible
    match eligible with
    | [] => st
    | ta0 :: rest =>
      let chosen := minByFirst (fun ta => (perTALookup perTA ta.id).length)
        ta0 rest
      (assignments ++ [⟨chosen, slot, course⟩],
       perTAAppend perTA chosen.id slot, unassigned.erase slot)

/-- `CourseScheduler._schedule_with_fairness`. -/
def scheduleWithFairness (pol : SchedulingPolicies) (course : Course)
    (unassignedSlots : List TimeSlot) (σ : AState) : PassState :=
  let availableTAs := course.assignedTAs.filter fun ta =>
    decide (remainingCapacity ta σ ≥ 2)
  if availableTAs.isEmpty then
    { assignments := [], violations := ["No TAs with available capacity"]
      unassigned := unassignedSlots, σ := σ }
  else
    let targetHoursPerTA :=
      course.getTotalHours.fdiv (availableTAs.length : Int)
    let perTA0 : PerTA := availableTAs.map fun ta => (ta.id, [])
    let sortedSlots := sortSlotsByDifficulty unassignedSlots availableTAs σ
    let (assignments, perTA, unassigned) :=
      sortedSlots.foldl (fairnessStep availableTAs targetHoursPerTA course σ)
        ([], perTA0, unassignedSlots)
    let (violations, σ') := availableTAs.foldl
      (fun (acc : List String × AState) ta =>
        let assignedSlots := perTALookup perTA ta.id
        if !assignedSlots.isEmpty then
          let (isValid, slotViolations) :=
            validateAssignment pol ta course assignedSlots
          ((if !isValid then acc.1 ++ slotViolations else acc.1),
           setCourseSlots acc.2 ta.id course.id assignedSlots)
        else acc) ([], σ)
    { assignments := assignments, violations := violations
      unassigned := unassigned, σ := σ' }

/-- `CourseScheduler.schedule_course`.  Returns the assignment and violation
lists together with the updated TA state. -/
def scheduleCourse (pol : SchedulingPolicies) (course : Course) (σ : AState) :
    List ScheduleAssignment × List String × AState :=
  if course.assignedTAs.isEmpty || course.requiredSlots.isEmpty then
    ([], ["No TAs assigned or no slots defined for course"], σ)
  else
    let st :=
      if pol.fairnessMode then
        scheduleWithFairness pol course course.requiredSlots σ
      else
        scheduleGreedy pol course course.requiredSlots σ
    let violations :=
      if !st.unassigned.isEmpty then
        st.violations ++ [s!"Could not assign {st.unassigned.length} slots"]
      else st.violations
    (st.assignments, violations, st.σ)

end CourseScheduler

/-- `models.GlobalSchedule` (the `conflicts` field is never written by the
engine and keeps its default). -/
structure GlobalSchedule where
  courses : List Course
  assignments : List ScheduleAssignment := []
  conflicts : List String := []
deriving DecidableEq, Repr

/-- `models.SchedulingResult`. -/
structure SchedulingResult where
  globalSchedule : GlobalSchedule
  success : Bool
  message : String
  unassignedSlots : List (Course × TimeSlot) := []
  policyViolations : List String := []
deriving DecidableEq, Repr

/-- `TA.__eq__`: identity is the `id` string. -/
def taPyEq (a b : TA) : Bool := decide (a.id = b.id)

def listEqBy {α : Type} (f : α → α → Bool) : List α → List α → Bool
  | [], [] => true
  | a :: as, b :: bs => f a b && listEqBy f as bs
  | _, _ => false

/-- `Course.__eq__` (dataclass-generated): field-wise, with TA elements
compared through `TA.__eq__`. -/
def coursePyEq (a b : Course) : Bool :=
  decide (a.id = b.id) && decide (a.name = b.name) &&
    decide (a.requiredSlots = b.requiredSlots) &&
    listEqBy taPyEq a.assignedTAs b.assignedTAs

/-- `ScheduleAssignment.__eq__` (dataclass-generated). -/
def assignPyEq (x y : ScheduleAssignment) : Bool :=
  taPyEq x.ta y.ta && decide (x.slot = y.slot) && coursePyEq x.course y.course

/-- `a in assignment_list` (Python membership via `__eq__`). -/
def memPy (a : ScheduleAssignment) (l : List ScheduleAssignment) : Bool :=
  l.any (assignPyEq a)

/-- The grid of `GlobalSchedule.get_schedule_grid`: an insertion-ordered dict
`(day, slot_number) -> [assignments]`. -/
def gridInsert (grid : List ((Day × Int) × List ScheduleAssignment))
    (a : ScheduleAssignment) : List ((Day × Int) × List ScheduleAssignment) :=
  let k := (a.slot.day, a.slot.slotNumber)
  if grid.any fun e => e.1 = k then
    grid.map fun e => if e.1 = k then (e.1, e.2 ++ [a]) else e
  else grid ++ [(k, [a])]

def scheduleGrid (assignments : List ScheduleAssignment) :
    List ((Day × Int) × List ScheduleAssignment) :=
  assignments.foldl gridInsert []

/-- Per-grid-cell walk of `GlobalSchedule.detect_conflicts`: one message for
every assignment whose TA id was already seen in the cell. -/
def dupConflicts (seen : List String) :
    List ScheduleAssignment → List String
  | [] => []
  | a :: rest =>
    (if a.ta.id ∈ seen then
      [s!"TA {a.ta.name} has multiple assignments"] else []) ++
      dupConflicts (a.ta.id :: seen) rest

/-- `GlobalSchedule.detect_conflicts`. -/
def detectConflicts (assignments : List ScheduleAssignment) : List String :=
  (scheduleGrid assignments).flatMap fun cell => dupConflicts [] cell.2

namespace GlobalScheduler

/-- `GlobalScheduler._sort_courses_by_priority`: the Python sort key
`(-difficulty_ratio, -total_slots, -len(assigned_tas))`. -/
def difficultyRatio (σ : AState) (course : Course) : ℚ :=
  let totalSlots := (course.requiredSlots.length : ℚ)
  let availableTAs := (course.assignedTAs.filter fun ta =>
    decide (remainingCapacity ta σ ≥ 2)).length
  totalSlots / (max (availableTAs : ℚ) 1)

def priorityKey (σ : AState) (course : Course) : ℚ × Int × Int :=
  (-(difficultyRatio σ course), -(course.requiredSlots.length : Int),
   -(course.assignedTAs.length : Int))

/-- Lexicographic `≤`: Python's comparison of the 3-tuples above. -/
def keyLe (a b : ℚ × Int × Int) : Prop :=
  a.1 < b.1 ∨ (a.1 = b.1 ∧
    (a.2.1 < b.2.1 ∨ (a.2.1 = b.2.1 ∧ a.2.2 ≤ b.2.2)))

instance keyLe.instDecidableRel : DecidableRel keyLe := fun _ _ =>
  inferInstanceAs (Decidable (_ ∨ _))

/-- `GlobalScheduler._sort_courses_by_priority` (Python's stable sort on the
tuple key). -/
def sortCoursesByPriority (σ : AState) (courses : List Course) : List Course :=
  courses.insertionSort fun c1 c2 => keyLe (priorityKey σ c1) (priorityKey σ c2)

/-- `GlobalScheduler._assignments_conflict`. -/
def assignmentsConflict (a1 a2 : ScheduleAssignment) : Bool :=
  decide (a1.ta.id = a2.ta.id) && decide (a1.slot.day = a2.slot.day) &&
    decide (a1.slot.slotNumber = a2.slot.slotNumber)

/-- `GlobalScheduler._group_conflicting_assignments`: repeatedly peel off the
first assignment together with every later one sharing its
`(ta.id, day, slot_number)` key; keep groups of size greater than one. -/
def groupConflictingAssignments :
    List ScheduleAssignment → List (List ScheduleAssignment)
  | [] => []
  | a :: rest =>
    let grp := a :: rest.filter fun b => assignmentsConflict a b
    let rem := rest.filter fun b => !assignmentsConflict a b
    (if grp.length > 1 then [grp] else []) ++ groupConflictingAssignments rem
termination_by l => l.length
decreasing_by
  simp only [List.length_cons]
  exact Nat.lt_succ_of_le (List.length_filter_le _ _)

/-- The scoring closure of `_select_best_assignment_from_conflict`.  Python
divides by `assignment.ta.max_weekly_hours` with floats; the model uses exact
rationals (`q / 0 = 0` where Python would raise). -/
def conflictScore (σ : AState) (a : ScheduleAssignment) : ℚ :=
  (match prefRank a.ta a.slot with
   | some rank => (max 0 (10 - rank) : ℚ)
   | none => 0) +
  1 / (max (a.course.assignedTAs.length : ℚ) 1) +
  (if (totalAssignedHours σ a.ta.id : ℚ) / (a.ta.maxWeeklyHours : ℚ) < 4 / 5
   then 2 else 0)

/-- `GlobalScheduler._select_best_assignment_from_conflict`. -/
def selectBestAssignmentFromConflict (σ : AState) (a : ScheduleAssignment)
    (rest : List ScheduleAssignment) : ScheduleAssignment :=
  maxByFirst (conflictScore σ) a rest

/-- One conflict group's contribution to `_resolve_conflicts`: the
best-scoring assignment of a proper conflict group, the sole member
otherwise. -/
def pickFromGroup (σ : AState) :
    List ScheduleAssignment → List ScheduleAssignment
  | [] => []
  | g0 :: gs =>
    if (g0 :: gs).length > 1 then [selectBestAssignmentFromConflict σ g0 gs]
    else [g0]

/-- `any(a in group for group in conflict_groups)`. -/
def inAnyGroup (groups : List (List ScheduleAssignment))
    (a : ScheduleAssignment) : Bool :=
  groups.any fun grp => memPy a grp

/-- `GlobalScheduler._resolve_conflicts`. -/
def resolveConflictsGlobal (σ : AState)
    (assignments : List ScheduleAssignment) :
    List ScheduleAssignment × String :=
  ((groupConflictingAssignments assignments).flatMap (pickFromGroup σ) ++
    assignments.filter fun a =>
      !inAnyGroup (groupConflictingAssignments assignments) a,
   s!"Resolved {(groupConflictingAssignments assignments).length} conflicts by removing {((groupConflictingAssignments assignments).map fun grp => grp.length - 1).sum} assignments")

/-- `GlobalScheduler._generate_summary_message`. -/
def summaryMessage (assignedCount unassignedCount conflictCount : Nat) :
    String :=
  String.intercalate ", "
    ([s!"Assigned {assignedCount} slots"] ++
     (if unassignedCount > 0 then [s!"{unassignedCount} unassigned"] else []) ++
     (if conflictCount > 0 then [s!"{conflictCount} conflicts resolved"]
      else []))

/-- The per-course body of `schedule_all_courses`: schedule the course on the
running TA state, then record the course's required slots that no produced
assignment covers.  The accumulator is
`(assignments, violations, unassigned (course, slot) pairs, TA state)`. -/
def globalStep (pol : SchedulingPolicies)
    (acc : List ScheduleAssignment × List String ×
      List (Course × TimeSlot) × AState) (course : Course) :
    List ScheduleAssignment × List String ×
      List (Course × TimeSlot) × AState :=
  (acc.1 ++ (CourseScheduler.scheduleCourse pol course acc.2.2.2).1,
   acc.2.1 ++ (CourseScheduler.scheduleCourse pol course acc.2.2.2).2.1,
   acc.2.2.1 ++ ((course.requiredSlots.filter fun slot =>
       !(CourseScheduler.scheduleCourse pol course acc.2.2.2).1.any fun a =>
         decide (a.slot = slot)).map fun slot => (course, slot)),
   (CourseScheduler.scheduleCourse pol course acc.2.2.2).2.2)

/-- The whole first pass of `schedule_all_courses`: `_reset_ta_assignments`
clears every TA's `current_assignments` (the state starts empty), the courses
are walked in `_sort_courses_by_priority` order. -/
def globalPass (pol : SchedulingPolicies) (courses : List Course) :
    List ScheduleAssignment × List String ×
      List (Course × TimeSlot) × AState :=
  (sortCoursesByPriority [] courses).foldl (globalStep pol) ([], [], [], [])

/-- `GlobalScheduler.schedule_all_courses`. -/
def scheduleAllCourses (pol : SchedulingPolicies) (courses : List Course) :
    SchedulingResult × AState :=
  if courses.isEmpty then
    ({ globalSchedule := { courses := [] }, success := false
       message := "No courses provided" }, [])
  else
    ({ globalSchedule :=
        { courses := courses
          assignments :=
            if !(detectConflicts (globalPass pol courses).1).isEmpty then
              (resolveConflictsGlobal (globalPass pol courses).2.2.2
                (globalPass pol courses).1).1
            else (globalPass pol courses).1 }
       success := (detectConflicts (globalPass pol courses).1).isEmpty &&
         (globalPass pol courses).2.2.1.isEmpty
       message := summaryMessage (globalPass pol courses).1.length
         (globalPass pol courses).2.2.1.length
         (detectConflicts (globalPass pol courses).1).length
       unassignedSlots := (globalPass pol courses).2.2.1
       policyViolations :=
         if !(detectConflicts (globalPass pol courses).1).isEmpty then
           (globalPass pol courses).2.1 ++
             [(resolveConflictsGlobal (globalPass pol courses).2.2.2
               (globalPass pol courses).1).2]
         else (globalPass pol courses).2.1 }, (globalPass pol courses).2.2.2)

end GlobalScheduler

namespace ConflictResolver

/-- `conflict_resolver.ConflictInfo`. -/
structure ConflictInfo where
  assignments : List ScheduleAssignment
  conflictType : String
  severity : Int
  resolutionSuggestions : List String
deriving DecidableEq, Repr

/-- Ordered-dict grouping keyed by `(ta.id, slot.day, slot.slot_number)`
(`_detect_double_bookings`). -/
def bookingInsert (m : List ((String × Day × Int) × List ScheduleAssignment))
    (a : ScheduleAssignment) :
    List ((String × Day × Int) × List ScheduleAssignment) :=
  let k := (a.ta.id, a.slot.day, a.slot.slotNumber)
  if m.any fun e => e.1 = k then
    m.map fun e => if e.1 = k then (e.1, e.2 ++ [a]) else e
  else m ++ [(k, [a])]

/-- `ConflictResolver._detect_double_bookings`. -/
def detectDoubleBookings (assignments : List ScheduleAssignment) :
    List ConflictInfo :=
  (assignments.foldl bookingInsert []).filterMap fun cell =>
    if cell.2.length > 1 then
      some { assignments := cell.2
             conflictType := "ta_double_booking"
             severity := 10
             resolutionSuggestions :=
               ["Remove one of the conflicting assignments",
                "Move one assignment to a different time slot",
                "Assign a different TA to one of the courses"] }
    else none

/-- Ordered-dict grouping keyed by `ta.id` (`_detect_overcapacity`); the first
assignment's TA record is the one stored for the group. -/
def workloadInsert
    (m : List (String × (TA × List ScheduleAssignment × Int)))
    (a : ScheduleAssignment) :
    List (String × (TA × List ScheduleAssignment × Int)) :=
  if m.any fun e => e.1 = a.ta.id then
    m.map fun e =>
      if e.1 = a.ta.id then
        (e.1, (e.2.1, e.2.2.1 ++ [a], e.2.2.2 + a.slot.duration))
      else e
  else m ++ [(a.ta.id, (a.ta, [a], a.slot.duration))]

/-- `ConflictResolver._detect_overcapacity`. -/
def detectOvercapacity (assignments : List ScheduleAssignment) :
    List ConflictInfo :=
  (assignments.foldl workloadInsert []).filterMap fun cell =>
    if cell.2.2.2 > cell.2.1.maxWeeklyHours then
      some { assignments := cell.2.2.1
             conflictType := "overcapacity"
             severity := 8
             resolutionSuggestions :=
               [s!"Remove assignments totaling {cell.2.2.2 - cell.2.1.maxWeeklyHours} hours",
                s!"Increase {cell.2.1.name} maximum weekly hours",
                "Redistribute assignments to other TAs"] }
    else none

/-- `ConflictResolver._detect_policy_violations`: the source groups the
assignments by `(ta.id, course.id)` into a local dict but then returns the
untouched empty `conflicts` list, so no policy-violation conflict is ever
produced. -/
def detectPolicyViolations (_assignments : List ScheduleAssignment) :
    List ConflictInfo :=
  []

/-- `ConflictResolver.detect_all_conflicts`. -/
def detectAllConflicts (assignments : List ScheduleAssignment) :
    List ConflictInfo :=
  detectDoubleBookings assignments ++ detectOvercapacity assignments ++
    detectPolicyViolations assignments

/-- The scoring closure of `ConflictResolver._select_best_assignment`
(preference bonus + course urgency + under-utilisation bonus). -/
def bestAssignmentScore (σ : AState) (a : ScheduleAssignment) : ℚ :=
  (match prefRank a.ta a.slot with
   | some rank => (max 0 (10 - rank) : ℚ)
   | none => 0) +
  (a.course.requiredSlots.length : ℚ) /
    (max (a.course.assignedTAs.length : ℚ) 1) +
  (if (totalAssignedHours σ a.ta.id : ℚ) / (a.ta.maxWeeklyHours : ℚ) < 4 / 5
   then 2 else 0)

/-- `ConflictResolver._assignment_removal_priority`. -/
def removalPriority (a : ScheduleAssignment) : ℚ :=
  (match prefRank a.ta a.slot with
   | some rank => -(max 0 (10 - rank) : ℚ)
   | none => 0) +
  (a.course.assignedTAs.length : ℚ) /
    (max (a.course.requiredSlots.length : ℚ) 1)

/-- The conflicting sub-list `[a for a in current if a in conflict.assignments]`
(Python membership through `__eq__`). -/
def conflictingOf (conflict : ConflictInfo)
    (currentAssignments : List ScheduleAssignment) :
    List ScheduleAssignment :=
  currentAssignments.filter fun a => memPy a conflict.assignments

/-- `ConflictResolver._resolve_double_booking` (`if len(conflicting) <= 1`
returns unchanged; otherwise the best-scoring conflicting assignment is kept
and the rest dropped). -/
def resolveDoubleBooking (σ : AState) (conflict : ConflictInfo)
    (currentAssignments : List ScheduleAssignment) :
    List ScheduleAssignment × String :=
  if (conflictingOf conflict currentAssignments).length ≤ 1 then
    (currentAssignments, "No double booking to resolve")
  else
    match conflictingOf conflict currentAssignments with
    | [] => (currentAssignments, "No double booking to resolve")
    | c0 :: cs =>
      ((currentAssignments.filter fun a =>
          !memPy a (conflictingOf conflict currentAssignments)) ++
        [maxByFirst (bestAssignmentScore σ) c0 cs],
       s!"Resolved double booking for {(maxByFirst (bestAssignmentScore σ) c0 cs).ta.name}")

/-- The keep-a-prefix walk of `_resolve_overcapacity` (the Python `for` loop
`break`s at the first assignment that no longer fits). -/
def keepWithinCapacity (maxHours : Int) :
    List ScheduleAssignment → Int → List ScheduleAssignment
  | [], _ => []
  | a :: rest, keptHours =>
    if keptHours + a.slot.duration ≤ maxHours then
      a :: keepWithinCapacity maxHours rest (keptHours + a.slot.duration)
    else []

/-- `ConflictResolver._resolve_overcapacity`. -/
def resolveOvercapacity (conflict : ConflictInfo)
    (currentAssignments : List ScheduleAssignment) :
    List ScheduleAssignment × String :=
  match conflictingOf conflict currentAssignments with
  | [] => (currentAssignments, "No overcapacity to resolve")
  | o0 :: _ =>
    if ((conflictingOf conflict currentAssignments).map fun a =>
        a.slot.duration).sum - o0.ta.maxWeeklyHours ≤ 0 then
      (currentAssignments, s!"No overcapacity for {o0.ta.name}")
    else
      ((currentAssignments.filter fun a =>
          !memPy a (conflictingOf conflict currentAssignments)) ++
        keepWithinCapacity o0.ta.maxWeeklyHours
          (sortByKey removalPriority
            (conflictingOf conflict currentAssignments)) 0,
       s!"Resolved overcapacity for {o0.ta.name}")

/-- First-occurrence deduplication of the collected conflicting assignments.
Python keys the dict on `id(a)` (object identity); under the engine's aliasing
discipline the model collapses Python-equal records instead, which every
downstream membership test treats identically. -/
def dedupAssignments (l : List ScheduleAssignment) : List ScheduleAssignment :=
  l.foldl (fun acc a => if memPy a acc then acc else acc ++ [a]) []

/-- `sorted(conflicts, key=lambda c: c.severity, reverse=True)`: CPython's
stable descending sort, i.e. the stable ascending sort on the negated key. -/
def sortConflictsBySeverity (conflicts : List ConflictInfo) :
    List ConflictInfo :=
  sortByKey (fun c => -c.severity) conflicts

/-- One step of the severity-descending resolution loop: double bookings and
overcapacity are repaired; any other conflict type leaves the assignment set
untouched. -/
def resolveStep (σ : AState) (acc : List ScheduleAssignment × List String)
    (conflict : ConflictInfo) : List ScheduleAssignment × List String :=
  if conflict.conflictType = "ta_double_booking" then
    ((resolveDoubleBooking σ conflict acc.1).1,
     acc.2 ++ [(resolveDoubleBooking σ conflict acc.1).2])
  else if conflict.conflictType = "overcapacity" then
    ((resolveOvercapacity conflict acc.1).1,
     acc.2 ++ [(resolveOvercapacity conflict acc.1).2])
  else acc

/-- `ConflictResolver.resolve_conflicts_automatically`. -/
def resolveConflictsAutomatically (σ : AState)
    (conflicts : List ConflictInfo) :
    List ScheduleAssignment × List String :=
  if conflicts.isEmpty then ([], [])
  else
    (sortConflictsBySeverity conflicts).foldl (resolveStep σ)
      (dedupAssignments (conflicts.flatMap ConflictInfo.assignments), [])

end ConflictResolver

namespace GIUScheduler

open ConflictResolver

/-- `GIUScheduler.resolve_conflicts` with `auto_resolve=True` (the claims under
verification address only the automatic branch; the manual branch returns the
untouched schedule plus suggestion strings). -/
def resolveConflicts (σ : AState) (result : SchedulingResult) :
    SchedulingResult :=
  if result.success then result
  else
    let conflicts := detectAllConflicts result.globalSchedule.assignments
    let (resolvedAssignments, resolutionMessages) :=
      resolveConflictsAutomatically σ conflicts
    let resolvedSchedule : GlobalSchedule :=
      { courses := result.globalSchedule.courses
        assignments := resolvedAssignments }
    let remainingConflicts := detectConflicts resolvedSchedule.assignments
    { globalSchedule := resolvedSchedule
      success := remainingConflicts.isEmpty && result.unassignedSlots.isEmpty
      message := result.message ++ "; " ++
        String.intercalate "; " resolutionMessages
      unassignedSlots := result.unassignedSlots
      policyViolations := result.policyViolations }

end GIUScheduler

/-!
Embedding of the intelligent backtracking driver of
`backend/simple_main.py::simple_fallback_schedule`.  TAs here are the dict
records the endpoint builds from the database.  The 30-second wall-clock
timeout is an environment effect outside a shallow embedding; no verified
property involves it.  The calls into the global `random` module
(`random.randint(1, 10000)` for the variation seed, `random.seed` /
`random.shuffle` for the per-depth candidate shuffle) are modelled by an
explicit hidden RNG state: `randintModel` maps the state to the drawn seed
(always in `1..10000`, exactly the interval `randint` is called with), and the
seeded shuffle is a parameter producing, like CPython's seeded Fisher–Yates,
a permutation that depends only on the seed and the list.
-/

namespace SimpleMain

end SimpleMain

/-! ### Generic facts about the sorting and extremum helpers -/

section SortFacts

variable {α : Type} {κ : Type} [LinearOrder κ]

theorem sortByKey_perm (f : α → κ) (xs : List α) :
    (sortByKey f xs).Perm xs :=
  List.perm_insertionSort _ xs

theorem sortByKey_mem_iff (f : α → κ) (xs : List α) (a : α) :
    a ∈ sortByKey f xs ↔ a ∈ xs :=
  (sortByKey_perm f xs).mem_iff

theorem sortByKey_pairwise (f : α → κ) (xs : List α) :
    List.Pairwise (fun a b => f a ≤ f b) (sortByKey f xs) := by
  haveI : IsTotal α fun a b => f a ≤ f b := ⟨fun a b => le_total (f a) (f b)⟩
  haveI : IsTrans α fun a b => f a ≤ f b :=
    ⟨fun _ _ _ hab hbc => le_trans hab hbc⟩
  exact List.sorted_insertionSort _ xs

theorem sortByKey_stable (f : α → κ) (xs : List α) (a b : α)
    (hab : f a ≤ f b) (hsub : [a, b].Sublist xs) :
    [a, b].Sublist (sortByKey f xs) :=
  List.pair_sublist_insertionSort hab hsub

theorem maxByFirst_mem (f : α → κ) (x : α) (xs : List α) :
    maxByFirst f x xs ∈ x :: xs := by
  induction xs generalizing x with
  | nil => simp [maxByFirst]
  | cons y ys ih =>
    simp only [maxByFirst, List.foldl_cons]
    by_cases h : f y > f x
    · simp only [if_pos h]
      have hm := ih (x := y)
      simp only [maxByFirst] at hm
      rcases List.mem_cons.mp hm with h' | h'
      · simp [h']
      · simp [List.mem_cons, h']
    · simp only [if_neg h]
      have hm := ih (x := x)
      simp only [maxByFirst] at hm
      rcases List.mem_cons.mp hm with h' | h'
      · simp [h']
      · simp [List.mem_cons, h']

theorem le_maxByFirst (f : α → κ) (x : α) (xs : List α) :
    ∀ c ∈ x :: xs, f c ≤ f (maxByFirst f x xs) := by
  induction xs generalizing x with
  | nil => intro c hc; simp [maxByFirst] at hc ⊢; simp [hc]
  | cons y ys ih =>
    intro c hc
    simp only [maxByFirst, List.foldl_cons]
    by_cases h : f y > f x
    · simp only [if_pos h]
      have hle := ih y
      simp only [maxByFirst] at hle
      rcases List.mem_cons.mp hc with rfl | hc'
      · exact le_trans (le_of_lt h) (hle y (by simp))
      · rcases List.mem_cons.mp hc' with rfl | hc''
        · exact hle c (by simp)
        · exact hle c (by simp [hc''])
    · simp only [if_neg h]
      have hle := ih x
      simp only [maxByFirst] at hle
      rcases List.mem_cons.mp hc with rfl | hc'
      · exact hle c (by simp)
      · rcases List.mem_cons.mp hc' with rfl | hc''
        · exact le_trans (le_of_not_lt h) (hle x (by simp))
        · exact hle c (by simp [hc''])

end SortFacts

/-! ### Concrete inputs used by counterexamples and witnesses -/

namespace Ex

/-- Four pairwise non-parallel tutorial slots. -/
def slotSun : TimeSlot := { day := .sunday, slotNumber := 1, slotType := .tutorial }

def slotMon : TimeSlot := { day := .monday, slotNumber := 1, slotType := .tutorial }

def slotTue : TimeSlot := { day := .tuesday, slotNumber := 1, slotType := .tutorial }

def slotWed : TimeSlot := { day := .wednesday, slotNumber := 1, slotType := .tutorial }

/-- A TA with a 2-hour weekly cap who is available for all four slots. -/
def taCap2 : TA :=
  { id := "t1", name := "T1", maxWeeklyHours := 2
    availableSlots := [slotSun, slotMon, slotTue, slotWed] }

/-- A course requiring the four slots, staffed by `taCap2` alone. -/
def courseFour : Course :=
  { id := "c1", name := "C1"
    requiredSlots := [slotSun, slotMon, slotTue, slotWed]
    assignedTAs := [taCap2] }

def polFair : SchedulingPolicies := { fairnessMode := true }

/-- All policies off: the greedy (non-fairness) scheduling path. -/
def polGreedy : SchedulingPolicies := {}

def polEqual : SchedulingPolicies := { tutorialLabEqualCount := true }

def polBoth : SchedulingPolicies :=
  { tutorialLabEqualCount := true, tutorialLabNumberMatching := true }

/-- Tutorial/lab slots for the policy-validator examples. -/
def slotT1 : TimeSlot := { day := .sunday, slotNumber := 1, slotType := .tutorial }

def slotL1 : TimeSlot := { day := .monday, slotNumber := 1, slotType := .lab }

def slotT2 : TimeSlot := { day := .tuesday, slotNumber := 2, slotType := .tutorial }

def slotL3 : TimeSlot := { day := .wednesday, slotNumber := 3, slotType := .lab }

def taWide : TA :=
  { id := "y", name := "Y", maxWeeklyHours := 20
    availableSlots := [slotT1, slotL1, slotT2, slotL3] }

def courseMix : Course :=
  { id := "cy", name := "CY"
    requiredSlots := [slotT1, slotL1, slotT2, slotL3]
    assignedTAs := [taWide] }

/-- Two TAs with only one availability difference, for the difficulty sort. -/
def taBroad : TA :=
  { id := "a", name := "A", maxWeeklyHours := 10
    availableSlots := [slotSun, slotMon] }

def taNarrow : TA :=
  { id := "b", name := "B", maxWeeklyHours := 10
    availableSlots := [slotMon] }

/-- A TA with a recorded preference rank, for the scoring witnesses. -/
def taPref : TA :=
  { id := "p", name := "Pref", maxWeeklyHours := 10
    availableSlots := [slotT1, slotL1]
    preferredSlots := [(slotT1, 2)] }

end Ex

/-! ### C10: empty slot-sets validate; generated combinations are non-empty -/

theorem mem_generateIndependent_ne_nil {avail : List TimeSlot} {m : Int}
    {combo : List TimeSlot}
    (h : combo ∈ PolicyValidator.generateIndependentCombinations avail m) :
    combo ≠ [] := by
  unfold PolicyValidator.generateIndependentCombinations at h
  rw [List.mem_flatMap] at h
  obtain ⟨r, hr, hcombo⟩ := h
  rw [List.mem_filter] at hcombo
  have hlen : combo.length = r :=
    (List.mem_sublistsLen.mp hcombo.1).2
  rw [List.mem_range'] at hr
  obtain ⟨i, _, rfl⟩ := hr
  intro hnil
  simp [hnil] at hlen
  omega

theorem mem_generateEqualCount_ne_nil {avail : List TimeSlot} {m : Int}
    {combo : List TimeSlot}
    (h : combo ∈ PolicyValidator.generateEqualCountCombinations avail m) :
    combo ≠ [] := by
  unfold PolicyValidator.generateEqualCountCombinations at h
  rw [List.mem_flatMap] at h
  obtain ⟨k, hk, hcombo⟩ := h
  rw [List.mem_flatMap] at hcombo
  obtain ⟨tc, htc, hcombo⟩ := hcombo
  rw [List.mem_filterMap] at hcombo
  obtain ⟨lc, _, heq⟩ := hcombo
  have hlen : tc.length = k := (List.mem_sublistsLen.mp htc).2
  rw [List.mem_range'] at hk
  obtain ⟨i, _, rfl⟩ := hk
  split at heq
  · intro hnil
    rw [Option.some_inj] at heq
    rw [← heq] at hnil
    have htcnil : tc = [] := by
      cases tc with
      | nil => rfl
      | cons a as => simp at hnil
    rw [htcnil] at hlen
    simp at hlen
    omega
  · exact absurd heq (by simp)

theorem numberLookup_isSome_of_mem_matching {avail : List TimeSlot} {n : Int}
    (hn : n ∈ PolicyValidator.matchingNumbersOf avail) :
    ∃ t, PolicyValidator.numberLookup (PolicyValidator.tutorialDictOf avail) n
      = some t := by
  have hmem : n ∈ (PolicyValidator.tutorialDictOf avail).map Prod.fst :=
    (List.mem_filter.mp hn).1
  rw [List.mem_map] at hmem
  obtain ⟨e, he, hefst⟩ := hmem
  have hfind : ((PolicyValidator.tutorialDictOf avail).find?
      fun x => x.1 = n).isSome := by
    rw [List.find?_isSome]
    exact ⟨e, he, by simp [hefst]⟩
  obtain ⟨p, hp⟩ := Option.isSome_iff_exists.mp hfind
  exact ⟨p.2, by rw [PolicyValidator.numberLookup, hp]; rfl⟩

theorem mem_generateNumberMatching_ne_nil {avail : List TimeSlot} {m : Int}
    {combo : List TimeSlot}
    (h : combo ∈ PolicyValidator.generateNumberMatchingCombinations avail m) :
    combo ≠ [] := by
  unfold PolicyValidator.generateNumberMatchingCombinations at h
  split at h
  · exact absurd h (by simp)
  · rw [List.mem_flatMap] at h
    obtain ⟨k, hk, hcombo⟩ := h
    rw [List.mem_filterMap] at hcombo
    obtain ⟨numberCombo, hnc, heq⟩ := hcombo
    have hsub := List.mem_sublistsLen.mp hnc
    rw [List.mem_range'] at hk
    obtain ⟨i, hilt, rfl⟩ := hk
    split at heq
    · rw [Option.some_inj] at heq
      cases hncc : numberCombo with
      | nil =>
        rw [hncc] at hsub
        simp at hsub
        omega
      | cons n ns =>
        have hn : n ∈ PolicyValidator.matchingNumbersOf avail :=
          hsub.1.mem (by simp [hncc])
        obtain ⟨t, ht⟩ := numberLookup_isSome_of_mem_matching hn
        intro hnil
        rw [← heq] at hnil
        rw [PolicyValidator.pairsForNumbers, hncc] at hnil
        simp only [List.flatMap_cons, ht] at hnil
        simp at hnil
    · exact absurd heq (by simp)

theorem validateAssignment_nil (pol : SchedulingPolicies) (ta : TA)
    (course : Course) :
    PolicyValidator.validateAssignment pol ta course [] = (true, []) := by
  have h1 : PolicyValidator.checkEqualCountPolicy [] = [] := by
    simp [PolicyValidator.checkEqualCountPolicy]
  have h2 : PolicyValidator.checkNumberMatchingPolicy [] = [] := by
    simp [PolicyValidator.checkNumberMatchingPolicy,
      PolicyValidator.tutorialNumbers, PolicyValidator.labNumbers]
  unfold PolicyValidator.validateAssignment
  cases pol.tutorialLabIndependence <;>
    cases pol.tutorialLabEqualCount <;>
    cases pol.tutorialLabNumberMatching <;>
    simp [h1, h2]

/-- **C10.**  `PolicyValidator.validate_assignment` accepts the empty proposed
slot list for every policy combination, TA and course, returning
`(True, [])`; and `get_valid_slot_combinations` never emits the empty
combination — every generated combination has at least one slot. -/
theorem C10_empty_slot_set (pol : SchedulingPolicies) (ta : TA) (σ : AState)
    (course : Course) (maxSlots : Int) :
    PolicyValidator.validateAssignment pol ta course [] = (true, []) ∧
      ∀ combo ∈ PolicyValidator.getValidSlotCombinations pol ta σ course
        maxSlots, combo ≠ [] := by
  refine ⟨validateAssignment_nil pol ta course, ?_⟩
  intro combo hmem
  unfold PolicyValidator.getValidSlotCombinations at hmem
  split at hmem
  · exact absurd hmem (by simp)
  · split at hmem
    · exact mem_generateIndependent_ne_nil hmem
    · split at hmem
      · exact mem_generateEqualCount_ne_nil (List.mem_filter.mp hmem).1
      · split at hmem
        · exact mem_generateEqualCount_ne_nil hmem
        · split at hmem
          · exact mem_generateNumberMatching_ne_nil hmem
          · exact mem_generateIndependent_ne_nil hmem

/-- Witness for C10 at a concrete input: the empty set validates under the
equal-count policy, and a concrete generated combination is non-empty. -/
theorem C10_empty_slot_set_witness :
    PolicyValidator.validateAssignment Ex.polEqual Ex.taWide Ex.courseMix []
        = (true, []) ∧
      [Ex.slotT1, Ex.slotL1] ∈ PolicyValidator.getValidSlotCombinations
        Ex.polEqual Ex.taWide [] Ex.courseMix 4 ∧
      [Ex.slotT1, Ex.slotL1] ≠ [] :=
  ⟨(C10_empty_slot_set Ex.polEqual Ex.taWide [] Ex.courseMix 4).1,
   by decide,
   (C10_empty_slot_set Ex.polEqual Ex.taWide [] Ex.courseMix 4).2
     [Ex.slotT1, Ex.slotL1] (by decide)⟩

/-! ### C7: the greedy strategy picks a maximal-score combination -/

/-- **C7.**  `CourseScheduler._select_best_combination` returns a member of the
candidate list whose score is maximal, so a combination with a strictly larger
score is never passed over; and on combinations all of whose slots carry a
recorded preference rank the score is exactly
`Σ max(0, 10 − rank) + 0.5·|combo|`, the formula of the claim (a slot without
a recorded rank scores the default 5 instead). -/
theorem C7_greedy_best_combination (ta : TA) (c : List TimeSlot)
    (rest : List (List TimeSlot)) :
    (CourseScheduler.selectBestCombination ta (c :: rest) ∈ c :: rest ∧
      ∀ combo ∈ c :: rest,
        CourseScheduler.scoreCombination ta combo ≤
          CourseScheduler.scoreCombination ta
            (CourseScheduler.selectBestCombination ta (c :: rest))) ∧
    ∀ (combo : List TimeSlot) (ranks : List Int),
      combo.map (prefRank ta) = ranks.map some →
      CourseScheduler.scoreCombination ta combo =
        (ranks.map fun r : Int => max (0 : ℚ) (10 - (r : ℚ))).sum +
          (combo.length : ℚ) * (1 / 2) := by
  constructor
  · constructor
    · exact maxByFirst_mem _ c rest
    · exact le_maxByFirst _ c rest
  · intro combo
    induction combo with
    | nil =>
      intro ranks h
      cases ranks with
      | nil => simp [CourseScheduler.scoreCombination]
      | cons r rs => simp at h
    | cons s c' ih =>
      intro ranks h
      cases ranks with
      | nil => simp at h
      | cons r rs =>
        simp only [List.map_cons, List.cons.injEq] at h
        obtain ⟨h1, h2⟩ := h
        have htail := ih rs h2
        simp only [CourseScheduler.scoreCombination, List.map_cons,
          List.sum_cons, h1, List.length_cons] at htail ⊢
        push_cast
        linarith

/-- Witness for C7 at a concrete input. -/
theorem C7_greedy_best_combination_witness :
    CourseScheduler.selectBestCombination Ex.taPref [[Ex.slotT1], [Ex.slotL1]]
        ∈ [[Ex.slotT1], [Ex.slotL1]] ∧
      CourseScheduler.scoreCombination Ex.taPref [Ex.slotL1] ≤
        CourseScheduler.scoreCombination Ex.taPref
          (CourseScheduler.selectBestCombination Ex.taPref
            [[Ex.slotT1], [Ex.slotL1]]) ∧
      CourseScheduler.scoreCombination Ex.taPref [Ex.slotT1] =
        ([(2 : Int)].map fun r : Int => max (0 : ℚ) (10 - (r : ℚ))).sum +
          ((1 : Nat) : ℚ) * (1 / 2) :=
  ⟨(C7_greedy_best_combination Ex.taPref [Ex.slotT1] [[Ex.slotL1]]).1.1,
   (C7_greedy_best_combination Ex.taPref [Ex.slotT1] [[Ex.slotL1]]).1.2
     [Ex.slotL1] (by decide),
   (C7_greedy_best_combination Ex.taPref [Ex.slotT1] [[Ex.slotL1]]).2
     [Ex.slotT1] [2] (by decide)⟩

/-! ### C3: fairness-mode slot processing order -/

/-- **C3 counterexample.**  In `_sort_slots_by_difficulty` the sort key is
`-available_count` in ascending order, so the slot with strictly FEWER
available TAs (`slotSun`, 1 TA) is placed AFTER the slot with more
(`slotMon`, 2 TAs) — the opposite of the claimed scarcest-first order. -/
theorem C3_scarcest_first_counterexample :
    ([Ex.taBroad, Ex.taNarrow].filter fun ta =>
        isAvailableForSlot ta [] Ex.slotSun).length <
      ([Ex.taBroad, Ex.taNarrow].filter fun ta =>
        isAvailableForSlot ta [] Ex.slotMon).length ∧
    CourseScheduler.sortSlotsByDifficulty [Ex.slotSun, Ex.slotMon]
        [Ex.taBroad, Ex.taNarrow] [] = [Ex.slotMon, Ex.slotSun] := by
  constructor
  · decide
  · decide

/-- **C3 amended.**  `_sort_slots_by_difficulty` orders the course's slots by
DESCENDING count of available TAs (most-available first), keeping the input
order of slots with equal counts; `_schedule_with_fairness` then walks the
slots in that order. -/
theorem C3_most_available_first (slots : List TimeSlot) (tas : List TA)
    (σ : AState) :
    (CourseScheduler.sortSlotsByDifficulty slots tas σ).Perm slots ∧
    List.Pairwise (fun s1 s2 =>
      (tas.filter fun ta => isAvailableForSlot ta σ s2).length ≤
        (tas.filter fun ta => isAvailableForSlot ta σ s1).length)
      (CourseScheduler.sortSlotsByDifficulty slots tas σ) ∧
    ∀ s1 s2,
      (tas.filter fun ta => isAvailableForSlot ta σ s1).length =
        (tas.filter fun ta => isAvailableForSlot ta σ s2).length →
      [s1, s2].Sublist slots →
      [s1, s2].Sublist (CourseScheduler.sortSlotsByDifficulty slots tas σ) := by
  refine ⟨sortByKey_perm _ slots, ?_, ?_⟩
  · have h := sortByKey_pairwise (fun s =>
      -(((tas.filter fun ta => isAvailableForSlot ta σ s).length : Int)))
      slots
    refine h.imp ?_
    intro a b hab
    simp only [neg_le_neg_iff, Int.ofNat_le] at hab
    exact_mod_cast hab
  · intro s1 s2 heq hsub
    refine sortByKey_stable _ slots s1 s2 ?_ hsub
    simp [heq]

/-- Witness for the C3 amended theorem: two equal-difficulty slots keep their
input order. -/
theorem C3_most_available_first_witness :
    (CourseScheduler.sortSlotsByDifficulty [Ex.slotSun, Ex.slotMon]
        [Ex.taBroad] []).Perm [Ex.slotSun, Ex.slotMon] ∧
    [Ex.slotSun, Ex.slotMon].Sublist
      (CourseScheduler.sortSlotsByDifficulty [Ex.slotSun, Ex.slotMon]
        [Ex.taBroad] []) :=
  ⟨(C3_most_available_first [Ex.slotSun, Ex.slotMon] [Ex.taBroad] []).1,
   (C3_most_available_first [Ex.slotSun, Ex.slotMon] [Ex.taBroad] []).2.2
     Ex.slotSun Ex.slotMon (by decide) (List.Sublist.refl _)⟩

/-! ### C4: determinism and global-RNG use -/

/-- **C6 counterexample.**  A schedule whose `(TA, course)` slot-set violates
the active equal-count policy (one tutorial, no lab) yields NO
`policy_violation` conflict: `_detect_policy_violations` always returns the
empty list, so `detect_all_conflicts` reports nothing at all here. -/
theorem C6_policy_conflict_counterexample :
    (PolicyValidator.validateAssignment Ex.polEqual Ex.taCap2 Ex.courseFour
        [Ex.slotSun]).1 = false ∧
    ConflictResolver.detectAllConflicts
        [{ ta := Ex.taCap2, slot := Ex.slotSun, course := Ex.courseFour }]
      = [] := by
  exact ⟨by decide, by decide⟩

theorem resolveStep_skip (σ : AState) (acc : List ScheduleAssignment ×
    List String) (c : ConflictResolver.ConflictInfo)
    (h1 : c.conflictType ≠ "ta_double_booking")
    (h2 : c.conflictType ≠ "overcapacity") :
    ConflictResolver.resolveStep σ acc c = acc := by
  unfold ConflictResolver.resolveStep
  rw [if_neg h1, if_neg h2]

theorem foldl_resolveStep_skip (σ : AState) :
    ∀ (l : List ConflictResolver.ConflictInfo)
      (acc : List ScheduleAssignment × List String),
      (∀ c ∈ l, c.conflictType ≠ "ta_double_booking" ∧
        c.conflictType ≠ "overcapacity") →
      l.foldl (ConflictResolver.resolveStep σ) acc = acc := by
  intro l
  induction l with
  | nil => intro acc _; rfl
  | cons c cs ih =>
    intro acc h
    rw [List.foldl_cons,
      resolveStep_skip σ acc c (h c (by simp)).1 (h c (by simp)).2]
    exact ih acc fun c' hc' => h c' (by simp [hc'])

/-- **C6 amended.**  `detect_all_conflicts` classifies every conflict it
produces as `ta_double_booking` (severity 10) or `overcapacity` (severity 8);
`_detect_policy_violations` always returns the empty list, so policy
violations are never reported as conflicts (hence never auto-fixed);
automatic resolution walks the conflicts in stable descending-severity order,
and conflicts of any other type (a caller-supplied `policy_violation`
included) leave the assignment set untouched and produce no resolution
message. -/
theorem C6_classification_and_order (assignments : List ScheduleAssignment)
    (σ : AState) (conflicts : List ConflictResolver.ConflictInfo) :
    (∀ c ∈ ConflictResolver.detectAllConflicts assignments,
      (c.conflictType = "ta_double_booking" ∧ c.severity = 10) ∨
        (c.conflictType = "overcapacity" ∧ c.severity = 8)) ∧
    ConflictResolver.detectPolicyViolations assignments = [] ∧
    (ConflictResolver.sortConflictsBySeverity conflicts).Perm conflicts ∧
    List.Pairwise (fun c1 c2 => c2.severity ≤ c1.severity)
      (ConflictResolver.sortConflictsBySeverity conflicts) ∧
    ((∀ c ∈ conflicts, c.conflictType ≠ "ta_double_booking" ∧
        c.conflictType ≠ "overcapacity") →
      ConflictResolver.resolveConflictsAutomatically σ conflicts =
        if conflicts.isEmpty then ([], [])
        else (ConflictResolver.dedupAssignments
          (conflicts.flatMap ConflictResolver.ConflictInfo.assignments), [])) := by
  refine ⟨?_, rfl, sortByKey_perm _ conflicts, ?_, ?_⟩
  · intro c hc
    unfold ConflictResolver.detectAllConflicts at hc
    rw [List.mem_append, List.mem_append] at hc
    rcases hc with (hc | hc) | hc
    · left
      unfold ConflictResolver.detectDoubleBookings at hc
      rw [List.mem_filterMap] at hc
      obtain ⟨cell, _, heq⟩ := hc
      split at heq
      · rw [Option.some_inj] at heq
        rw [← heq]
        exact ⟨rfl, rfl⟩
      · exact absurd heq (by simp)
    · right
      unfold ConflictResolver.detectOvercapacity at hc
      rw [List.mem_filterMap] at hc
      obtain ⟨cell, _, heq⟩ := hc
      split at heq
      · rw [Option.some_inj] at heq
        rw [← heq]
        exact ⟨rfl, rfl⟩
      · exact absurd heq (by simp)
    · exact absurd hc (by simp [ConflictResolver.detectPolicyViolations])
  · have h := sortByKey_pairwise (fun c : ConflictResolver.ConflictInfo =>
      -c.severity) conflicts
    exact h.imp fun hab => by omega
  · intro h
    unfold ConflictResolver.resolveConflictsAutomatically
    split
    · rfl
    · exact foldl_resolveStep_skip σ
        (ConflictResolver.sortConflictsBySeverity conflicts) _
        fun c hc => h c ((sortByKey_perm
          (fun c : ConflictResolver.ConflictInfo => -c.severity)
          conflicts).subset hc)

/-- A caller-supplied policy-violation conflict record, for the C6 witness. -/
def exPolicyAssign : ScheduleAssignment :=
  { ta := Ex.taCap2, slot := Ex.slotSun, course := Ex.courseFour }

def exPolicyConflict : ConflictResolver.ConflictInfo :=
  { assignments := [exPolicyAssign]
    conflictType := "policy_violation"
    severity := 5
    resolutionSuggestions := [] }

/-- Witness for the C6 amended theorem: a single caller-supplied
`policy_violation` conflict survives sorting but the assignment list is
rebuilt untouched from it and no fix message is emitted. -/
theorem C6_classification_and_order_witness :
    (ConflictResolver.sortConflictsBySeverity [exPolicyConflict]).Perm
      [exPolicyConflict] ∧
    ConflictResolver.resolveConflictsAutomatically [] [exPolicyConflict] =
      ([exPolicyAssign], []) := by
  refine ⟨(C6_classification_and_order [] [] [exPolicyConflict]).2.2.1, ?_⟩
  rw [(C6_classification_and_order [] [] [exPolicyConflict]).2.2.2.2
    (by decide)]
  decide

/-! ### C9: automatic resolution rebuilds from the conflicting assignments -/

theorem mem_keepWithinCapacity {maxH : Int} {a : ScheduleAssignment} :
    ∀ {l : List ScheduleAssignment} {k : Int},
      a ∈ ConflictResolver.keepWithinCapacity maxH l k → a ∈ l := by
  intro l
  induction l with
  | nil => intro k h; exact absurd h (by simp [ConflictResolver.keepWithinCapacity])
  | cons b bs ih =>
    intro k h
    unfold ConflictResolver.keepWithinCapacity at h
    split at h
    · rcases List.mem_cons.mp h with rfl | h'
      · simp
      · simp [ih h']
    · exact absurd h (by simp)

theorem mem_resolveDoubleBooking {σ : AState}
    {conflict : ConflictResolver.ConflictInfo}
    {cur : List ScheduleAssignment} {a : ScheduleAssignment}
    (h : a ∈ (ConflictResolver.resolveDoubleBooking σ conflict cur).1) :
    a ∈ cur := by
  unfold ConflictResolver.resolveDoubleBooking at h
  split at h
  · exact h
  · split at h
    · exact h
    · next c0 cs heq =>
      rcases List.mem_append.mp h with h' | h'
      · exact (List.mem_filter.mp h').1
      · have hbest := maxByFirst_mem (ConflictResolver.bestAssignmentScore σ)
          c0 cs
        rw [← heq] at hbest
        rw [List.mem_singleton.mp h']
        exact (List.mem_filter.mp hbest).1

theorem mem_resolveOvercapacity {conflict : ConflictResolver.ConflictInfo}
    {cur : List ScheduleAssignment} {a : ScheduleAssignment}
    (h : a ∈ (ConflictResolver.resolveOvercapacity conflict cur).1) :
    a ∈ cur := by
  unfold ConflictResolver.resolveOvercapacity at h
  split at h
  · exact h
  · split at h
    · exact h
    · rcases List.mem_append.mp h with h' | h'
      · exact (List.mem_filter.mp h').1
      · have hmem := mem_keepWithinCapacity h'
        rw [sortByKey_mem_iff] at hmem
        exact (List.mem_filter.mp hmem).1

theorem mem_dedupAssignments {l : List ScheduleAssignment}
    {a : ScheduleAssignment} (h : a ∈ ConflictResolver.dedupAssignments l) :
    a ∈ l := by
  unfold ConflictResolver.dedupAssignments at h
  suffices hgen : ∀ (l' : List ScheduleAssignment)
      (acc : List ScheduleAssignment),
      a ∈ l'.foldl (fun acc a =>
        if memPy a acc then acc else acc ++ [a]) acc →
      a ∈ acc ∨ a ∈ l' by
    rcases hgen l [] h with h' | h'
    · exact absurd h' (by simp)
    · exact h'
  intro l'
  induction l' with
  | nil => intro acc h'; exact Or.inl h'
  | cons b bs ih =>
    intro acc h'
    rw [List.foldl_cons] at h'
    rcases ih _ h' with h'' | h''
    · by_cases hb : memPy b acc
      · rw [if_pos hb] at h''
        exact Or.inl h''
      · rw [if_neg hb] at h''
        rcases List.mem_append.mp h'' with h3 | h3
        · exact Or.inl h3
        · exact Or.inr (by simp [List.mem_singleton.mp h3])
    · exact Or.inr (by simp [h''])

theorem mem_resolveStep {σ : AState}
    {acc : List ScheduleAssignment × List String}
    {c : ConflictResolver.ConflictInfo} {a : ScheduleAssignment}
    (h : a ∈ (ConflictResolver.resolveStep σ acc c).1) : a ∈ acc.1 := by
  unfold ConflictResolver.resolveStep at h
  split at h
  · exact mem_resolveDoubleBooking h
  · split at h
    · exact mem_resolveOvercapacity h
    · exact h

theorem mem_foldl_resolveStep {σ : AState} {a : ScheduleAssignment} :
    ∀ {l : List ConflictResolver.ConflictInfo}
      {acc : List ScheduleAssignment × List String},
      a ∈ (l.foldl (ConflictResolver.resolveStep σ) acc).1 → a ∈ acc.1 := by
  intro l
  induction l with
  | nil => intro acc h; exact h
  | cons c cs ih =>
    intro acc h
    rw [List.foldl_cons] at h
    exact mem_resolveStep (ih h)

/-- **C9.**  `resolve_conflicts_automatically` returns only assignments that
occur in some input `ConflictInfo`; consequently, on the automatic-resolution
path of `GIUScheduler.resolve_conflicts` (taken when the input result is not
successful) every assignment of the rebuilt schedule comes from a detected
conflict, and an assignment involved in no detected conflict is absent from
the resolved schedule. -/
theorem C9_resolution_frame (σ : AState) :
    (∀ (conflicts : List ConflictResolver.ConflictInfo)
      (a : ScheduleAssignment),
      a ∈ (ConflictResolver.resolveConflictsAutomatically σ conflicts).1 →
      ∃ c ∈ conflicts, a ∈ c.assignments) ∧
    (∀ (result : SchedulingResult) (a : ScheduleAssignment),
      result.success = false →
      a ∈ (GIUScheduler.resolveConflicts σ result).globalSchedule.assignments →
      ∃ c ∈ ConflictResolver.detectAllConflicts
        result.globalSchedule.assignments, a ∈ c.assignments) ∧
    ∀ (result : SchedulingResult) (a : ScheduleAssignment),
      result.success = false →
      (∀ c ∈ ConflictResolver.detectAllConflicts
        result.globalSchedule.assignments, a ∉ c.assignments) →
      a ∉ (GIUScheduler.resolveConflicts σ result).globalSchedule.assignments
    := by
  have hauto : ∀ (conflicts : List ConflictResolver.ConflictInfo)
      (a : ScheduleAssignment),
      a ∈ (ConflictResolver.resolveConflictsAutomatically σ conflicts).1 →
      ∃ c ∈ conflicts, a ∈ c.assignments := by
    intro conflicts a h
    unfold ConflictResolver.resolveConflictsAutomatically at h
    split at h
    · exact absurd h (by simp)
    · have hdedup := mem_foldl_resolveStep h
      have hflat := mem_dedupAssignments hdedup
      exact List.mem_flatMap.mp hflat
  have hgiu : ∀ (result : SchedulingResult) (a : ScheduleAssignment),
      result.success = false →
      a ∈ (GIUScheduler.resolveConflicts σ result).globalSchedule.assignments →
      ∃ c ∈ ConflictResolver.detectAllConflicts
        result.globalSchedule.assignments, a ∈ c.assignments := by
    intro result a hsucc hmem
    unfold GIUScheduler.resolveConflicts at hmem
    rw [if_neg (by simp [hsucc])] at hmem
    exact hauto _ a hmem
  exact ⟨hauto, hgiu, fun result a hsucc hnone hmem =>
    have ⟨c, hc, hac⟩ := hgiu result a hsucc hmem
    hnone c hc hac⟩

/-- A failed result whose single assignment is involved in no conflict. -/
def exFailedResult : SchedulingResult :=
  { globalSchedule := { courses := [], assignments := [exPolicyAssign] }
    success := false
    message := "" }

/-- Witness for C9: the conflict-free assignment of a failed result vanishes
from the automatically resolved schedule. -/
theorem C9_resolution_frame_witness :
    exPolicyAssign ∉ (GIUScheduler.resolveConflicts []
      exFailedResult).globalSchedule.assignments :=
  (C9_resolution_frame []).2.2 exFailedResult exPolicyAssign (by decide)
    (by decide)

/-! ### C8: global course ordering -/

theorem keyLe_refl (a : ℚ × Int × Int) : GlobalScheduler.keyLe a a :=
  Or.inr ⟨rfl, Or.inr ⟨rfl, le_refl _⟩⟩

theorem keyLe_total (a b : ℚ × Int × Int) :
    GlobalScheduler.keyLe a b ∨ GlobalScheduler.keyLe b a := by
  unfold GlobalScheduler.keyLe
  rcases lt_trichotomy a.1 b.1 with h1 | h1 | h1
  · exact Or.inl (Or.inl h1)
  · rcases lt_trichotomy a.2.1 b.2.1 with h2 | h2 | h2
    · exact Or.inl (Or.inr ⟨h1, Or.inl h2⟩)
    · rcases le_total a.2.2 b.2.2 with h3 | h3
      · exact Or.inl (Or.inr ⟨h1, Or.inr ⟨h2, h3⟩⟩)
      · exact Or.inr (Or.inr ⟨h1.symm, Or.inr ⟨h2.symm, h3⟩⟩)
    · exact Or.inr (Or.inr ⟨h1.symm, Or.inl h2⟩)
  · exact Or.inr (Or.inl h1)

theorem keyLe_trans (a b c : ℚ × Int × Int) (hab : GlobalScheduler.keyLe a b)
    (hbc : GlobalScheduler.keyLe b c) : GlobalScheduler.keyLe a c := by
  unfold GlobalScheduler.keyLe at *
  rcases hab with h1 | ⟨h1, h2⟩
  · rcases hbc with h1' | ⟨h1', _⟩
    · exact Or.inl (lt_trans h1 h1')
    · exact Or.inl (h1' ▸ h1)
  · rcases hbc with h1' | ⟨h1', h2'⟩
    · exact Or.inl (h1 ▸ h1')
    · refine Or.inr ⟨h1.trans h1', ?_⟩
      rcases h2 with h2 | ⟨h2, h3⟩
      · rcases h2' with h2' | ⟨h2', _⟩
        · exact Or.inl (lt_trans h2 h2')
        · exact Or.inl (h2' ▸ h2)
      · rcases h2' with h2' | ⟨h2', h3'⟩
        · exact Or.inl (h2 ▸ h2')
        · exact Or.inr ⟨h2.trans h2', le_trans h3 h3'⟩

/-- Unfolding the lexicographic comparison of negated priority keys into the
descending difficulty-tuple relation of the claim. -/
theorem keyLe_priority_iff (σ : AState) (c1 c2 : Course) :
    GlobalScheduler.keyLe (GlobalScheduler.priorityKey σ c1)
      (GlobalScheduler.priorityKey σ c2) ↔
    (GlobalScheduler.difficultyRatio σ c2 <
        GlobalScheduler.difficultyRatio σ c1 ∨
      (GlobalScheduler.difficultyRatio σ c1 =
          GlobalScheduler.difficultyRatio σ c2 ∧
        (c2.requiredSlots.length < c1.requiredSlots.length ∨
          (c1.requiredSlots.length = c2.requiredSlots.length ∧
            c2.assignedTAs.length ≤ c1.assignedTAs.length)))) := by
  unfold GlobalScheduler.keyLe GlobalScheduler.priorityKey
  simp only [neg_lt_neg_iff, neg_inj, neg_le_neg_iff, Nat.cast_lt,
    Nat.cast_inj, Nat.cast_le]

/-- **C8.**  `_sort_courses_by_priority` (the order in which
`schedule_all_courses` walks the courses) is a permutation of the input,
pairwise descending on the tuple `(difficulty_ratio, total_slots,
n_assigned_tas)` — where `difficulty_ratio = total_slots / max(1, #TAs with
remaining capacity ≥ 2)` — and stable: courses with equal tuples keep their
input order. -/
theorem C8_course_priority_order (σ : AState) (courses : List Course) :
    (GlobalScheduler.sortCoursesByPriority σ courses).Perm courses ∧
    List.Pairwise (fun c1 c2 =>
      GlobalScheduler.difficultyRatio σ c2 <
          GlobalScheduler.difficultyRatio σ c1 ∨
        (GlobalScheduler.difficultyRatio σ c1 =
            GlobalScheduler.difficultyRatio σ c2 ∧
          (c2.requiredSlots.length < c1.requiredSlots.length ∨
            (c1.requiredSlots.length = c2.requiredSlots.length ∧
              c2.assignedTAs.length ≤ c1.assignedTAs.length))))
      (GlobalScheduler.sortCoursesByPriority σ courses) ∧
    ∀ c1 c2,
      GlobalScheduler.priorityKey σ c1 = GlobalScheduler.priorityKey σ c2 →
      [c1, c2].Sublist courses →
      [c1, c2].Sublist (GlobalScheduler.sortCoursesByPriority σ courses) := by
  haveI : IsTotal Course (fun c1 c2 => GlobalScheduler.keyLe
      (GlobalScheduler.priorityKey σ c1) (GlobalScheduler.priorityKey σ c2)) :=
    ⟨fun c1 c2 => keyLe_total _ _⟩
  haveI : IsTrans Course (fun c1 c2 => GlobalScheduler.keyLe
      (GlobalScheduler.priorityKey σ c1) (GlobalScheduler.priorityKey σ c2)) :=
    ⟨fun _ _ _ => keyLe_trans _ _ _⟩
  refine ⟨List.perm_insertionSort _ courses, ?_, ?_⟩
  · have h := List.sorted_insertionSort (fun c1 c2 => GlobalScheduler.keyLe
      (GlobalScheduler.priorityKey σ c1) (GlobalScheduler.priorityKey σ c2))
      courses
    exact h.imp fun hab => (keyLe_priority_iff σ _ _).mp hab
  · intro c1 c2 hkey hsub
    exact List.pair_sublist_insertionSort (hkey ▸ keyLe_refl _) hsub

/-- Two courses with equal priority tuples, for the C8 witness. -/
def exCourseA : Course := { id := "cA", name := "A", requiredSlots := [Ex.slotSun] }

def exCourseB : Course := { id := "cB", name := "B", requiredSlots := [Ex.slotMon] }

/-- Witness for C8: the sorted list is a permutation, and the two equal-tuple
courses keep their input order. -/
theorem C8_course_priority_order_witness :
    (GlobalScheduler.sortCoursesByPriority [] [exCourseA, exCourseB]).Perm
      [exCourseA, exCourseB] ∧
    [exCourseA, exCourseB].Sublist
      (GlobalScheduler.sortCoursesByPriority [] [exCourseA, exCourseB]) :=
  ⟨(C8_course_priority_order [] [exCourseA, exCourseB]).1,
   (C8_course_priority_order [] [exCourseA, exCourseB]).2.2 exCourseA
     exCourseB rfl (List.Sublist.refl _)⟩

/-! ### C2: both tutorial-lab policies active means intersection -/

theorem checkNumberMatching_eq_nil_iff (slots : List TimeSlot) :
    PolicyValidator.checkNumberMatchingPolicy slots = [] ↔
    ∀ n : Int, n ∈ PolicyValidator.tutorialNumbers slots ↔
      n ∈ PolicyValidator.labNumbers slots := by
  unfold PolicyValidator.checkNumberMatchingPolicy
  by_cases hA : (PolicyValidator.tutorialNumbers slots).any fun n =>
      decide (n ∉ PolicyValidator.labNumbers slots)
  · rw [if_pos hA]
    simp only [List.cons_append, List.any_eq_true, decide_eq_true_eq] at hA ⊢
    obtain ⟨n, hn, hnl⟩ := hA
    constructor
    · intro h; exact absurd h (by simp)
    · intro h; exact absurd ((h n).mp hn) hnl
  · rw [if_neg hA]
    by_cases hB : (PolicyValidator.labNumbers slots).any fun n =>
        decide (n ∉ PolicyValidator.tutorialNumbers slots)
    · rw [if_pos hB]
      simp only [List.any_eq_true, decide_eq_true_eq] at hB
      obtain ⟨n, hn, hnt⟩ := hB
      constructor
      · intro h; exact absurd h (by simp)
      · intro h; exact absurd ((h n).mpr hn) hnt
    · rw [if_neg hB]
      rw [Bool.not_eq_true, List.any_eq_false] at hA hB
      simp only [decide_eq_true_eq, not_not] at hA hB
      constructor
      · intro _ n
        exact ⟨fun hn => hA n hn, fun hn => hB n hn⟩
      · intro _
        rfl

theorem two_fdiv_le (m : Int) : 2 * (m.fdiv 2) ≤ m := by
  rw [Int.fdiv_eq_ediv _ (by norm_num)]
  have h := Int.ediv_mul_le m (b := 2) (by norm_num)
  linarith

theorem mem_generateEqualCount_iff {avail : List TimeSlot} {m : Int}
    {combo : List TimeSlot} :
    combo ∈ PolicyValidator.generateEqualCountCombinations avail m ↔
    ∃ tc lc, combo = tc ++ lc ∧
      tc.Sublist (PolicyValidator.tutorialsOf avail) ∧
      lc.Sublist (PolicyValidator.labsOf avail) ∧
      tc.length = lc.length ∧ 1 ≤ tc.length ∧
      (tc.length : Int) ≤ m.fdiv 2 ∧
      PolicyValidator.hasParallelConflicts combo = false := by
  unfold PolicyValidator.generateEqualCountCombinations
  rw [List.mem_flatMap]
  constructor
  · rintro ⟨k, hk, hcombo⟩
    rw [List.mem_flatMap] at hcombo
    obtain ⟨tc, htc, hcombo⟩ := hcombo
    rw [List.mem_filterMap] at hcombo
    obtain ⟨lc, hlc, heq⟩ := hcombo
    obtain ⟨htcs, htcl⟩ := List.mem_sublistsLen.mp htc
    obtain ⟨hlcs, hlcl⟩ := List.mem_sublistsLen.mp hlc
    rw [List.mem_range'] at hk
    obtain ⟨i, hilt, rfl⟩ := hk
    split at heq
    · next hcond =>
      rw [Option.some_inj] at heq
      rw [Bool.and_eq_true, Bool.not_eq_true'] at hcond
      refine ⟨tc, lc, heq.symm, htcs, hlcs, by omega, by omega, ?_, ?_⟩
      · have hle : (1 + 1 * i) ≤
            (PolicyValidator.maxPairsOf avail m).toNat := by omega
        have := PolicyValidator.maxPairsOf avail m
        unfold PolicyValidator.maxPairsOf at hle
        omega
      · rw [← heq]; exact hcond.2
    · exact absurd heq (by simp)
  · rintro ⟨tc, lc, rfl, htcs, hlcs, hlen, hpos, hbound, hpar⟩
    refine ⟨tc.length, ?_, ?_⟩
    · rw [List.mem_range']
      refine ⟨tc.length - 1, ?_, by omega⟩
      have h1 : tc.length ≤ (PolicyValidator.tutorialsOf avail).length :=
        htcs.length_le
      have h2 : tc.length ≤ (PolicyValidator.labsOf avail).length :=
        hlen ▸ hlcs.length_le
      unfold PolicyValidator.maxPairsOf
      omega
    · rw [List.mem_flatMap]
      refine ⟨tc, List.mem_sublistsLen.mpr ⟨htcs, rfl⟩, ?_⟩
      rw [List.mem_filterMap]
      refine ⟨lc, List.mem_sublistsLen.mpr ⟨hlcs, hlen.symm⟩, ?_⟩
      rw [if_pos]
      rw [Bool.and_eq_true, Bool.not_eq_true', decide_eq_true_eq]
      have := two_fdiv_le m
      constructor
      · simp only [List.length_append]
        push_cast
        omega
      · exact hpar

/-- **C2.**  With independence off and both `equal_count` and
`number_matching` on, `get_valid_slot_combinations` returns exactly the
intersection of the two policies, never their union: every returned
combination pairs equally many tutorials and labs AND has its tutorial
slot-number set equal to its lab slot-number set, and a combination is
returned iff it is an equal-count selection from the TA's available slots
(within the generator's bounds: at least one pair, at most
`max_slots // 2` pairs, no two slots sharing a `(day, slot_number)`) that
also passes the number-matching check. -/
theorem C2_both_policies_intersection (pol : SchedulingPolicies) (ta : TA)
    (σ : AState) (course : Course) (maxSlots : Int)
    (h1 : pol.tutorialLabIndependence = false)
    (h2 : pol.tutorialLabEqualCount = true)
    (h3 : pol.tutorialLabNumberMatching = true) :
    (∀ combo ∈ PolicyValidator.getValidSlotCombinations pol ta σ course
        maxSlots,
      (combo.filter fun s => s.slotType = .tutorial).length =
        (combo.filter fun s => s.slotType = .lab).length ∧
      ∀ n : Int, n ∈ PolicyValidator.tutorialNumbers combo ↔
        n ∈ PolicyValidator.labNumbers combo) ∧
    ∀ combo : List TimeSlot,
      combo ∈ PolicyValidator.getValidSlotCombinations pol ta σ course
        maxSlots ↔
      (∃ tc lc, combo = tc ++ lc ∧
        tc.Sublist (PolicyValidator.tutorialsOf
          (PolicyValidator.availableSlotsFor ta σ course)) ∧
        lc.Sublist (PolicyValidator.labsOf
          (PolicyValidator.availableSlotsFor ta σ course)) ∧
        tc.length = lc.length ∧ 1 ≤ tc.length ∧
        (tc.length : Int) ≤ maxSlots.fdiv 2 ∧
        PolicyValidator.hasParallelConflicts combo = false) ∧
      PolicyValidator.checkNumberMatchingPolicy combo = [] := by
  have hform : ∀ combo : List TimeSlot,
      combo ∈ PolicyValidator.getValidSlotCombinations pol ta σ course
        maxSlots ↔
      combo ∈ PolicyValidator.generateEqualCountCombinations
        (PolicyValidator.availableSlotsFor ta σ course) maxSlots ∧
      PolicyValidator.checkNumberMatchingPolicy combo = [] := by
    intro combo
    unfold PolicyValidator.getValidSlotCombinations
    rw [h1, h2, h3]
    simp only [Bool.false_eq_true, if_false, Bool.and_self, if_true]
    split
    · next hempty =>
      rw [List.isEmpty_iff] at hempty
      constructor
      · intro h; exact absurd h (by simp)
      · rintro ⟨hmem, -⟩
        rw [mem_generateEqualCount_iff] at hmem
        obtain ⟨tc, lc, -, htcs, -, -, hpos, -, -⟩ := hmem
        rw [hempty] at htcs
        have htcnil : tc = [] := by
          simpa [PolicyValidator.tutorialsOf] using htcs
        rw [htcnil] at hpos
        simp at hpos
    · rw [List.mem_filter, List.isEmpty_iff]
  constructor
  · intro combo hmem
    rw [hform combo] at hmem
    obtain ⟨hgen, hmatch⟩ := hmem
    rw [mem_generateEqualCount_iff] at hgen
    obtain ⟨tc, lc, rfl, htcs, hlcs, hlen, -, -, -⟩ := hgen
    constructor
    · have htut : ∀ s ∈ tc, s.slotType = SlotType.tutorial := fun s hs =>
        by simpa using (List.mem_filter.mp (htcs.mem hs)).2
      have hlab : ∀ s ∈ lc, s.slotType = SlotType.lab := fun s hs =>
        by simpa using (List.mem_filter.mp (hlcs.mem hs)).2
      rw [List.filter_append, List.filter_append]
      have e1 : tc.filter (fun s => s.slotType = SlotType.tutorial) = tc :=
        List.filter_eq_self.mpr fun s hs => by simp [htut s hs]
      have e2 : lc.filter (fun s => s.slotType = SlotType.tutorial) = [] :=
        List.filter_eq_nil_iff.mpr fun s hs => by simp [hlab s hs]
      have e3 : tc.filter (fun s => s.slotType = SlotType.lab) = [] :=
        List.filter_eq_nil_iff.mpr fun s hs => by simp [htut s hs]
      have e4 : lc.filter (fun s => s.slotType = SlotType.lab) = lc :=
        List.filter_eq_self.mpr fun s hs => by simp [hlab s hs]
      rw [e1, e2, e3, e4]
      simpa using hlen
    · exact (checkNumberMatching_eq_nil_iff _).mp hmatch
  · intro combo
    rw [hform combo, mem_generateEqualCount_iff]

/-- Witness for C2 at a concrete input: under both policies the validator
returns the matched pair `[T1, L1]`, and it balances tutorials and labs. -/
theorem C2_both_policies_intersection_witness :
    Ex.polBoth.tutorialLabIndependence = false ∧
    [Ex.slotT1, Ex.slotL1] ∈ PolicyValidator.getValidSlotCombinations
      Ex.polBoth Ex.taWide [] Ex.courseMix 4 ∧
    ([Ex.slotT1, Ex.slotL1].filter fun s => s.slotType = .tutorial).length =
      ([Ex.slotT1, Ex.slotL1].filter fun s => s.slotType = .lab).length :=
  ⟨rfl, by decide,
   ((C2_both_policies_intersection Ex.polBoth Ex.taWide [] Ex.courseMix 4
       rfl rfl rfl).1 [Ex.slotT1, Ex.slotL1] (by decide)).1⟩

/-! ### C1: the weekly-hours cap under success -/

/-- A TA's total assigned hours in an assignment list: the sum of
`slot.duration` over the assignments carrying the TA's id. -/
def assignedHoursOf (assignments : List ScheduleAssignment) (taId : String) :
    Int :=
  ((assignments.filter fun a => a.ta.id = taId).map fun a =>
    a.slot.duration).sum

/-- **C1 counterexample.**  On the fairness-mode path the capacity invariant
fails with `success = true`: one course with four non-parallel slots and one
TA capped at 2 weekly hours schedules all four slots (8 hours) onto that TA —
`_schedule_with_fairness` checks `get_remaining_capacity` only once, before
assigning, and never re-checks while distributing slots. -/
theorem C1_capacity_counterexample :
    (GlobalScheduler.scheduleAllCourses Ex.polFair [Ex.courseFour]).1.success
        = true ∧
    assignedHoursOf (GlobalScheduler.scheduleAllCourses Ex.polFair
        [Ex.courseFour]).1.globalSchedule.assignments Ex.taCap2.id = 8 ∧
    Ex.taCap2.maxWeeklyHours = 2 ∧
    ¬(assignedHoursOf (GlobalScheduler.scheduleAllCourses Ex.polFair
        [Ex.courseFour]).1.globalSchedule.assignments Ex.taCap2.id ≤
      Ex.taCap2.maxWeeklyHours) := by
  refine ⟨by decide, by decide, by decide, by decide⟩

section StateLemmas

variable {β : Type}

theorem alookup_aset_self (m : List (String × β)) (k : String) (v : β) :
    alookup (aset m k v) k = some v := by
  induction m with
  | nil => simp [aset, alookup]
  | cons e rest ih =>
    by_cases h : e.1 = k
    · cases e
      simp_all [aset, alookup]
    · cases e
      simp_all [aset, alookup]

theorem alookup_aset_ne (m : List (String × β)) (k k' : String) (v : β)
    (h : k' ≠ k) : alookup (aset m k v) k' = alookup m k' := by
  induction m with
  | nil =>
    simp only [aset, alookup]
    rw [if_neg fun he => h he.symm]
  | cons e rest ih =>
    cases e with
    | mk ek ev =>
      by_cases hek : ek = k
      · subst hek
        simp only [aset, if_pos rfl, alookup]
        rw [if_neg fun he => h he.symm, if_neg fun he => h he.symm]
      · simp only [aset, if_neg hek, alookup]
        by_cases hek' : ek = k'
        · rw [if_pos hek', if_pos hek']
        · rw [if_neg hek', if_neg hek']
          exact ih

theorem alookup_eq_none (m : List (String × β)) (k : String)
    (h : ∀ e ∈ m, e.1 ≠ k) : alookup m k = none := by
  induction m with
  | nil => rfl
  | cons e rest ih =>
    simp only [alookup]
    rw [if_neg (h e (by simp))]
    exact ih fun e' he' => h e' (by simp [he'])

theorem mem_aset (m : List (String × β)) (k : String) (v : β)
    (e : String × β) (he : e ∈ aset m k v) : e = (k, v) ∨ e ∈ m := by
  induction m with
  | nil => simpa [aset] using he
  | cons e' rest ih =>
    by_cases h : e'.1 = k
    · cases e'
      simp only [aset] at he
      rw [if_pos h] at he
      rcases List.mem_cons.mp he with h' | h'
      · exact Or.inl (by simp_all)
      · exact Or.inr (by simp [h'])
    · cases e'
      simp only [aset] at he
      rw [if_neg h] at he
      rcases List.mem_cons.mp he with h' | h'
      · exact Or.inr (by simp [h'])
      · rcases ih h' with h'' | h''
        · exact Or.inl h''
        · exact Or.inr (by simp [h''])

/-- The weekly-hours value of one TA's course map. -/
def courseMapHours (m : CourseMap) : Int :=
  (m.map fun e => (e.2.map TimeSlot.duration).sum).sum

theorem totalAssignedHours_eq (σ : AState) (taId : String) :
    totalAssignedHours σ taId = courseMapHours (taCourseMap σ taId) := rfl

theorem courseMapHours_aset_none (m : CourseMap) (k : String)
    (v : List TimeSlot) (h : alookup m k = none) :
    courseMapHours (aset m k v) =
      courseMapHours m + (v.map TimeSlot.duration).sum := by
  induction m with
  | nil => simp [aset, courseMapHours]
  | cons e rest ih =>
    cases e with
    | mk ek ev =>
      simp only [alookup] at h
      by_cases hek : ek = k
      · rw [if_pos hek] at h
        exact absurd h (by simp)
      · rw [if_neg hek] at h
        simp only [aset, if_neg hek, courseMapHours, List.map_cons,
          List.sum_cons] at ih ⊢
        rw [ih h]
        ring

theorem taCourseMap_set_self (σ : AState) (t c : String)
    (slots : List TimeSlot) :
    taCourseMap (setCourseSlots σ t c slots) t =
      aset (taCourseMap σ t) c slots := by
  unfold taCourseMap setCourseSlots
  rw [alookup_aset_self]
  rfl

theorem taCourseMap_set_ne (σ : AState) (t t' c : String)
    (slots : List TimeSlot) (h : t' ≠ t) :
    taCourseMap (setCourseSlots σ t c slots) t' = taCourseMap σ t' := by
  unfold taCourseMap setCourseSlots
  rw [alookup_aset_ne _ _ _ _ h]

theorem totalAssignedHours_set_self (σ : AState) (t c : String)
    (slots : List TimeSlot) (h : alookup (taCourseMap σ t) c = none) :
    totalAssignedHours (setCourseSlots σ t c slots) t =
      totalAssignedHours σ t + (slots.map TimeSlot.duration).sum := by
  rw [totalAssignedHours_eq, totalAssignedHours_eq, taCourseMap_set_self]
  exact courseMapHours_aset_none _ _ _ h

theorem totalAssignedHours_set_ne (σ : AState) (t t' c : String)
    (slots : List TimeSlot) (h : t' ≠ t) :
    totalAssignedHours (setCourseSlots σ t c slots) t' =
      totalAssignedHours σ t' := by
  rw [totalAssignedHours_eq, totalAssignedHours_eq,
    taCourseMap_set_ne _ _ _ _ _ h]

theorem mem_taCourseMap_set (σ : AState) (t c : String)
    (slots : List TimeSlot) (t' : String) (e : String × List TimeSlot)
    (he : e ∈ taCourseMap (setCourseSlots σ t c slots) t') :
    (t' = t ∧ e = (c, slots)) ∨ e ∈ taCourseMap σ t' := by
  by_cases h : t' = t
  · subst h
    rw [taCourseMap_set_self] at he
    rcases mem_aset _ _ _ _ he with h' | h'
    · exact Or.inl ⟨rfl, h'⟩
    · exact Or.inr h'
  · rw [taCourseMap_set_ne _ _ _ _ _ h] at he
    exact Or.inr he

end StateLemmas

/-! Weight-function view of `assignedHoursOf`. -/

def hourWeight (taId : String) (a : ScheduleAssignment) : Int :=
  if a.ta.id = taId then a.slot.duration else 0

theorem assignedHoursOf_eq_sum (l : List ScheduleAssignment) (taId : String) :
    assignedHoursOf l taId = (l.map (hourWeight taId)).sum := by
  induction l with
  | nil => rfl
  | cons a rest ih =>
    unfold assignedHoursOf hourWeight at *
    by_cases h : a.ta.id = taId
    · simp only [List.filter_cons]
      rw [if_pos (by simpa using h)]
      simp only [List.map_cons, List.sum_cons]
      rw [if_pos h, ← ih]
    · simp only [List.filter_cons]
      rw [if_neg (by simpa using h)]
      simp only [List.map_cons, List.sum_cons]
      rw [if_neg h, ← ih]
      simp

theorem assignedHoursOf_append (l1 l2 : List ScheduleAssignment)
    (taId : String) :
    assignedHoursOf (l1 ++ l2) taId =
      assignedHoursOf l1 taId + assignedHoursOf l2 taId := by
  rw [assignedHoursOf_eq_sum, assignedHoursOf_eq_sum, assignedHoursOf_eq_sum,
    List.map_append, List.sum_append]

/-! Bounds on the combinations the validator generates: every combination
draws its slots from the available list, and its size is bounded by
`max_slots`. -/

theorem mem_generateIndependent_length {avail : List TimeSlot} {m : Int}
    {combo : List TimeSlot}
    (h : combo ∈ PolicyValidator.generateIndependentCombinations avail m) :
    (combo.length : Int) ≤ m := by
  unfold PolicyValidator.generateIndependentCombinations at h
  rw [List.mem_flatMap] at h
  obtain ⟨r, hr, hcombo⟩ := h
  rw [List.mem_filter] at hcombo
  have hlen : combo.length = r := (List.mem_sublistsLen.mp hcombo.1).2
  rw [List.mem_range'] at hr
  obtain ⟨i, hilt, rfl⟩ := hr
  omega

theorem mem_generateIndependent_subset {avail : List TimeSlot} {m : Int}
    {combo : List TimeSlot}
    (h : combo ∈ PolicyValidator.generateIndependentCombinations avail m) :
    ∀ s ∈ combo, s ∈ avail := by
  unfold PolicyValidator.generateIndependentCombinations at h
  rw [List.mem_flatMap] at h
  obtain ⟨r, _, hcombo⟩ := h
  rw [List.mem_filter] at hcombo
  exact fun s hs => (List.mem_sublistsLen.mp hcombo.1).1.mem hs

theorem mem_generateEqualCount_length {avail : List TimeSlot} {m : Int}
    {combo : List TimeSlot}
    (h : combo ∈ PolicyValidator.generateEqualCountCombinations avail m) :
    (combo.length : Int) ≤ m := by
  rw [mem_generateEqualCount_iff] at h
  obtain ⟨tc, lc, rfl, -, -, hlen, -, hbound, -⟩ := h
  have := two_fdiv_le m
  simp only [List.length_append]
  push_cast
  omega

theorem mem_generateEqualCount_subset {avail : List TimeSlot} {m : Int}
    {combo : List TimeSlot}
    (h : combo ∈ PolicyValidator.generateEqualCountCombinations avail m) :
    ∀ s ∈ combo, s ∈ avail := by
  rw [mem_generateEqualCount_iff] at h
  obtain ⟨tc, lc, rfl, htcs, hlcs, -, -, -, -⟩ := h
  intro s hs
  rcases List.mem_append.mp hs with hs' | hs'
  · exact (List.mem_filter.mp (htcs.mem hs')).1
  · exact (List.mem_filter.mp (hlcs.mem hs')).1

theorem mem_numberDict_snd (slots : List TimeSlot)
    (e : Int × TimeSlot) (he : e ∈ PolicyValidator.numberDict slots) :
    e.2 ∈ slots := by
  unfold PolicyValidator.numberDict at he
  suffices hgen : ∀ (l : List TimeSlot) (acc : List (Int × TimeSlot)),
      e ∈ l.foldl (fun d s =>
        if d.any fun e => e.1 = s.slotNumber then
          d.map fun e => if e.1 = s.slotNumber then (e.1, s) else e
        else d ++ [(s.slotNumber, s)]) acc →
      e ∈ acc ∨ e.2 ∈ l by
    rcases hgen slots [] he with h' | h'
    · exact absurd h' (by simp)
    · exact h'
  intro l
  induction l with
  | nil => intro acc h; exact Or.inl h
  | cons s ss ih =>
    intro acc h
    rw [List.foldl_cons] at h
    rcases ih _ h with h' | h'
    · split at h'
      · rw [List.mem_map] at h'
        obtain ⟨e0, he0, heq⟩ := h'
        by_cases h0 : e0.1 = s.slotNumber
        · rw [if_pos h0] at heq
          exact Or.inr (by simp [← heq])
        · rw [if_neg h0] at heq
          exact Or.inl (heq ▸ he0)
      · rcases List.mem_append.mp h' with h'' | h''
        · exact Or.inl h''
        · exact Or.inr (by simp [List.mem_singleton.mp h''])
    · exact Or.inr (by simp [h'])

theorem numberLookup_mem {d : List (Int × TimeSlot)} {n : Int} {t : TimeSlot}
    (h : PolicyValidator.numberLookup d n = some t) :
    ∃ e ∈ d, e.2 = t := by
  unfold PolicyValidator.numberLookup at h
  cases hf : d.find? fun e => e.1 = n with
  | none => rw [hf] at h; exact absurd h (by simp)
  | some p =>
    rw [hf] at h
    exact ⟨p, List.mem_of_find?_eq_some hf, by simpa using h⟩

theorem mem_generateNumberMatching_length {avail : List TimeSlot} {m : Int}
    {combo : List TimeSlot}
    (h : combo ∈ PolicyValidator.generateNumberMatchingCombinations avail m) :
    (combo.length : Int) ≤ m := by
  unfold PolicyValidator.generateNumberMatchingCombinations at h
  split at h
  · exact absurd h (by simp)
  · rw [List.mem_flatMap] at h
    obtain ⟨k, _, hcombo⟩ := h
    rw [List.mem_filterMap] at hcombo
    obtain ⟨numberCombo, _, heq⟩ := hcombo
    split at heq
    · next hcond =>
      rw [Option.some_inj] at heq
      rw [Bool.and_eq_true, decide_eq_true_eq] at hcond
      rw [← heq]
      exact hcond.1
    · exact absurd heq (by simp)

theorem mem_generateNumberMatching_subset {avail : List TimeSlot} {m : Int}
    {combo : List TimeSlot}
    (h : combo ∈ PolicyValidator.generateNumberMatchingCombinations avail m) :
    ∀ s ∈ combo, s ∈ avail := by
  unfold PolicyValidator.generateNumberMatchingCombinations at h
  split at h
  · exact absurd h (by simp)
  · rw [List.mem_flatMap] at h
    obtain ⟨k, _, hcombo⟩ := h
    rw [List.mem_filterMap] at hcombo
    obtain ⟨numberCombo, _, heq⟩ := hcombo
    split at heq
    · rw [Option.some_inj] at heq
      rw [← heq]
      intro s hs
      unfold PolicyValidator.pairsForNumbers at hs
      rw [List.mem_flatMap] at hs
      obtain ⟨n, _, hsn⟩ := hs
      rcases List.mem_append.mp hsn with h' | h'
      · cases hl : PolicyValidator.numberLookup
            (PolicyValidator.tutorialDictOf avail) n with
        | none => rw [hl] at h'; exact absurd h' (by simp)
        | some t =>
          rw [hl] at h'
          obtain ⟨e, he, het⟩ := numberLookup_mem hl
          have := mem_numberDict_snd _ e he
          rw [List.mem_singleton.mp h', ← het]
          exact (List.mem_filter.mp this).1
      · cases hl : PolicyValidator.numberLookup
            (PolicyValidator.labDictOf avail) n with
        | none => rw [hl] at h'; exact absurd h' (by simp)
        | some t =>
          rw [hl] at h'
          obtain ⟨e, he, het⟩ := numberLookup_mem hl
          have := mem_numberDict_snd _ e he
          rw [List.mem_singleton.mp h', ← het]
          exact (List.mem_filter.mp this).1
    · exact absurd heq (by simp)

theorem mem_getValid_length {pol : SchedulingPolicies} {ta : TA} {σ : AState}
    {course : Course} {m : Int} {combo : List TimeSlot}
    (h : combo ∈ PolicyValidator.getValidSlotCombinations pol ta σ course m) :
    (combo.length : Int) ≤ m := by
  unfold PolicyValidator.getValidSlotCombinations at h
  split at h
  · exact absurd h (by simp)
  · split at h
    · exact mem_generateIndependent_length h
    · split at h
      · exact mem_generateEqualCount_length (List.mem_filter.mp h).1
      · split at h
        · exact mem_generateEqualCount_length h
        · split at h
          · exact mem_generateNumberMatching_length h
          · exact mem_generateIndependent_length h

theorem mem_getValid_subset {pol : SchedulingPolicies} {ta : TA} {σ : AState}
    {course : Course} {m : Int} {combo : List TimeSlot}
    (h : combo ∈ PolicyValidator.getValidSlotCombinations pol ta σ course m) :
    ∀ s ∈ combo, s ∈ course.requiredSlots := by
  have havail : ∀ s ∈ PolicyValidator.availableSlotsFor ta σ course,
      s ∈ course.requiredSlots := fun s hs => (List.mem_filter.mp hs).1
  unfold PolicyValidator.getValidSlotCombinations at h
  split at h
  · exact absurd h (by simp)
  · split at h
    · exact fun s hs => havail s (mem_generateIndependent_subset h s hs)
    · split at h
      · exact fun s hs => havail s
          (mem_generateEqualCount_subset (List.mem_filter.mp h).1 s hs)
      · split at h
        · exact fun s hs => havail s (mem_generateEqualCount_subset h s hs)
        · split at h
          · exact fun s hs => havail s
              (mem_generateNumberMatching_subset h s hs)
          · exact fun s hs => havail s (mem_generateIndependent_subset h s hs)

/-! Facts about Python equality of assignments and the global conflict
grouping. -/

theorem listEqBy_refl {α : Type} (f : α → α → Bool) (hf : ∀ a, f a a = true) :
    ∀ l : List α, listEqBy f l l = true := by
  intro l
  induction l with
  | nil => rfl
  | cons a rest ih => simp [listEqBy, hf a, ih]

theorem assignPyEq_refl (a : ScheduleAssignment) : assignPyEq a a = true := by
  unfold assignPyEq taPyEq coursePyEq
  simp [listEqBy_refl taPyEq (fun t => by simp [taPyEq])]

theorem assignPyEq_key {a b : ScheduleAssignment}
    (h : assignPyEq a b = true) : a.ta.id = b.ta.id ∧ a.slot = b.slot := by
  unfold assignPyEq taPyEq at h
  simp only [Bool.and_eq_true, decide_eq_true_eq] at h
  exact ⟨h.1.1, h.1.2⟩

theorem conflict_of_pyEq {x a b : ScheduleAssignment}
    (hab : assignPyEq a b = true)
    (hxa : GlobalScheduler.assignmentsConflict x a = true) :
    GlobalScheduler.assignmentsConflict x b = true := by
  obtain ⟨hid, hslot⟩ := assignPyEq_key hab
  unfold GlobalScheduler.assignmentsConflict at *
  simp only [Bool.and_eq_true, decide_eq_true_eq] at *
  exact ⟨⟨hid ▸ hxa.1.1, hslot ▸ hxa.1.2⟩, hslot ▸ hxa.2⟩

theorem mem_of_mem_groupConflicting_aux :
    ∀ (n : Nat) (l : List ScheduleAssignment), l.length ≤ n →
      ∀ grp ∈ GlobalScheduler.groupConflictingAssignments l,
      ∀ a ∈ grp, a ∈ l := by
  intro n
  induction n with
  | zero =>
    intro l hl grp hgrp
    rw [Nat.le_zero, List.length_eq_zero] at hl
    subst hl
    exact absurd hgrp (by simp [GlobalScheduler.groupConflictingAssignments])
  | succ n ih =>
    intro l hl grp hgrp a ha
    cases l with
    | nil =>
      exact absurd hgrp (by simp [GlobalScheduler.groupConflictingAssignments])
    | cons x rest =>
      rw [GlobalScheduler.groupConflictingAssignments] at hgrp
      rw [List.mem_append] at hgrp
      rcases hgrp with hgrp | hgrp
      · split at hgrp
        · rw [List.mem_singleton.mp hgrp] at ha
          rcases List.mem_cons.mp ha with rfl | ha'
          · simp
          · simp [(List.mem_filter.mp ha').1, List.mem_cons]
        · exact absurd hgrp (by simp)
      · have hlen : (rest.filter fun b =>
            !GlobalScheduler.assignmentsConflict x b).length ≤ n := by
          simp only [List.length_cons] at hl
          exact le_trans (List.length_filter_le _ _) (by omega)
        have := ih _ hlen grp hgrp a ha
        exact List.mem_cons.mpr (Or.inr (List.mem_filter.mp this).1)

theorem mem_of_mem_groupConflicting {l grp : List ScheduleAssignment}
    (hgrp : grp ∈ GlobalScheduler.groupConflictingAssignments l)
    {a : ScheduleAssignment} (ha : a ∈ grp) : a ∈ l :=
  mem_of_mem_groupConflicting_aux l.length l le_rfl grp hgrp a ha

theorem hourWeight_nonneg {τ : String} {a : ScheduleAssignment}
    (h : 0 ≤ a.slot.duration) : 0 ≤ hourWeight τ a := by
  unfold hourWeight
  split
  · exact h
  · exact le_refl 0

theorem assignedHoursOf_filter_partition (l : List ScheduleAssignment)
    (p : ScheduleAssignment → Bool) (τ : String) :
    assignedHoursOf (l.filter p) τ +
      assignedHoursOf (l.filter fun a => !p a) τ = assignedHoursOf l τ := by
  induction l with
  | nil => rfl
  | cons a rest ih =>
    by_cases h : p a
    · rw [List.filter_cons_of_pos h, List.filter_cons_of_neg (by simp [h])]
      rw [assignedHoursOf_eq_sum, List.map_cons, List.sum_cons,
        ← assignedHoursOf_eq_sum] at *
      rw [assignedHoursOf_eq_sum (a :: rest), List.map_cons, List.sum_cons,
        ← assignedHoursOf_eq_sum]
      omega
    · rw [List.filter_cons_of_neg (by simp [h]), List.filter_cons_of_pos (by simp [h])]
      rw [assignedHoursOf_eq_sum (a :: (rest.filter fun a => !p a)),
        List.map_cons, List.sum_cons, ← assignedHoursOf_eq_sum]
      rw [assignedHoursOf_eq_sum (a :: rest), List.map_cons, List.sum_cons,
        ← assignedHoursOf_eq_sum]
      omega

theorem hourWeight_le_assignedHoursOf {l : List ScheduleAssignment}
    {a : ScheduleAssignment} (ha : a ∈ l)
    (hd : ∀ b ∈ l, 0 ≤ b.slot.duration) (τ : String) :
    hourWeight τ a ≤ assignedHoursOf l τ := by
  rw [assignedHoursOf_eq_sum]
  exact List.single_le_sum
    (fun w hw => by
      rw [List.mem_map] at hw
      obtain ⟨b, hb, rfl⟩ := hw
      exact hourWeight_nonneg (hd b hb))
    _ (List.mem_map.mpr ⟨a, ha, rfl⟩)

theorem assignedHoursOf_cons (a : ScheduleAssignment)
    (l : List ScheduleAssignment) (τ : String) :
    assignedHoursOf (a :: l) τ = hourWeight τ a + assignedHoursOf l τ := by
  rw [assignedHoursOf_eq_sum, List.map_cons, List.sum_cons,
    ← assignedHoursOf_eq_sum]

theorem filter_filter_eq {α : Type} (p q : α → Bool) (l : List α) :
    (l.filter p).filter q = l.filter fun a => p a && q a := by
  induction l with
  | nil => rfl
  | cons a rest ih =>
    by_cases hp : p a
    · rw [List.filter_cons_of_pos hp]
      by_cases hq : q a
      · rw [List.filter_cons_of_pos hq, List.filter_cons_of_pos (by simp [hp, hq]), ih]
      · rw [List.filter_cons_of_neg (by simpa using hq),
          List.filter_cons_of_neg (by simp [hq]), ih]
    · rw [List.filter_cons_of_neg (by simpa using hp),
        List.filter_cons_of_neg (by simp [hp]), ih]

theorem conflict_self (x : ScheduleAssignment) :
    GlobalScheduler.assignmentsConflict x x = true := by
  simp [GlobalScheduler.assignmentsConflict]

theorem conflict_congr_right {x a b : ScheduleAssignment}
    (hab : assignPyEq a b = true) :
    GlobalScheduler.assignmentsConflict x a =
      GlobalScheduler.assignmentsConflict x b := by
  obtain ⟨hid, hslot⟩ := assignPyEq_key hab
  unfold GlobalScheduler.assignmentsConflict
  rw [hid, hslot]

/-! `_resolve_conflicts` never increases any TA's assigned hours: each
conflict group contributes at most one of its own members, and the
non-conflicting leftovers are a sublist of the input. -/

theorem resolveGlobal_hours_le_aux :
    ∀ (n : Nat) (l : List ScheduleAssignment), l.length ≤ n →
      (∀ a ∈ l, 0 ≤ a.slot.duration) → ∀ (σ : AState) (τ : String),
      assignedHoursOf
        ((GlobalScheduler.groupConflictingAssignments l).flatMap
          (GlobalScheduler.pickFromGroup σ)) τ +
      assignedHoursOf
        (l.filter fun a =>
          !GlobalScheduler.inAnyGroup
            (GlobalScheduler.groupConflictingAssignments l) a) τ
      ≤ assignedHoursOf l τ := by
  intro n
  induction n with
  | zero =>
    intro l hl hd σ τ
    rw [Nat.le_zero, List.length_eq_zero] at hl
    subst hl
    simp [GlobalScheduler.groupConflictingAssignments, assignedHoursOf]
  | succ n ih =>
    intro l hl hd σ τ
    cases l with
    | nil => simp [GlobalScheduler.groupConflictingAssignments, assignedHoursOf]
    | cons x rest =>
      rw [GlobalScheduler.groupConflictingAssignments]
      have hdx : 0 ≤ x.slot.duration := hd x (List.mem_cons_self x rest)
      have hdrest : ∀ a ∈ rest, 0 ≤ a.slot.duration :=
        fun a ha => hd a (List.mem_cons_of_mem x ha)
      have hlenrem : (rest.filter fun b =>
          !GlobalScheduler.assignmentsConflict x b).length ≤ n := by
        simp only [List.length_cons] at hl
        exact le_trans (List.length_filter_le _ _) (by omega)
      have hdrem : ∀ a ∈ (rest.filter fun b =>
          !GlobalScheduler.assignmentsConflict x b), 0 ≤ a.slot.duration :=
        fun a ha => hdrest a (List.mem_of_mem_filter ha)
      by_cases hbig : (x :: rest.filter fun b =>
          GlobalScheduler.assignmentsConflict x b).length > 1
      · rw [if_pos hbig, List.singleton_append, List.flatMap_cons]
        rw [GlobalScheduler.pickFromGroup, if_pos hbig]
        have hmem_iff : ∀ a ∈ rest,
            memPy a (x :: rest.filter fun b =>
              GlobalScheduler.assignmentsConflict x b) =
            GlobalScheduler.assignmentsConflict x a := by
          intro a ha
          cases hconf : GlobalScheduler.assignmentsConflict x a with
          | false =>
            cases hm : memPy a (x :: rest.filter fun b =>
                GlobalScheduler.assignmentsConflict x b) with
            | false => rfl
            | true =>
              exfalso
              simp only [memPy, List.any_eq_true] at hm
              obtain ⟨b, hb, hpy⟩ := hm
              rcases List.mem_cons.mp hb with rfl | hb'
              · rw [conflict_congr_right hpy, conflict_self] at hconf
                simp at hconf
              · have hcb : GlobalScheduler.assignmentsConflict x b = true := by
                  have := (List.mem_filter.mp hb').2
                  simpa using this
                rw [conflict_congr_right hpy, hcb] at hconf
                simp at hconf
          | true =>
            simp only [memPy, List.any_eq_true]
            exact ⟨a, List.mem_cons.mpr
              (Or.inr (List.mem_filter.mpr ⟨ha, hconf⟩)), assignPyEq_refl a⟩
        have hpx : (!GlobalScheduler.inAnyGroup
            ((x :: rest.filter fun b =>
              GlobalScheduler.assignmentsConflict x b) ::
              GlobalScheduler.groupConflictingAssignments
                (rest.filter fun b =>
                  !GlobalScheduler.assignmentsConflict x b)) x) = false := by
          simp only [GlobalScheduler.inAnyGroup, List.any_cons, memPy,
            assignPyEq_refl, Bool.true_or, Bool.not_true]
        have hfx : (x :: rest).filter (fun a => !GlobalScheduler.inAnyGroup
            ((x :: rest.filter fun b =>
              GlobalScheduler.assignmentsConflict x b) ::
              GlobalScheduler.groupConflictingAssignments
                (rest.filter fun b =>
                  !GlobalScheduler.assignmentsConflict x b)) a) =
            rest.filter (fun a => !GlobalScheduler.inAnyGroup
            ((x :: rest.filter fun b =>
              GlobalScheduler.assignmentsConflict x b) ::
              GlobalScheduler.groupConflictingAssignments
                (rest.filter fun b =>
                  !GlobalScheduler.assignmentsConflict x b)) a) := by
          rw [List.filter_cons]
          simp [hpx]
        rw [hfx]
        have hfilter : rest.filter (fun a => !GlobalScheduler.inAnyGroup
            ((x :: rest.filter fun b =>
              GlobalScheduler.assignmentsConflict x b) ::
              GlobalScheduler.groupConflictingAssignments
                (rest.filter fun b =>
                  !GlobalScheduler.assignmentsConflict x b)) a) =
            (rest.filter fun b =>
              !GlobalScheduler.assignmentsConflict x b).filter
              fun a => !GlobalScheduler.inAnyGroup
                (GlobalScheduler.groupConflictingAssignments
                  (rest.filter fun b =>
                    !GlobalScheduler.assignmentsConflict x b)) a := by
          rw [filter_filter_eq]
          apply List.filter_congr
          intro a ha
          simp only [GlobalScheduler.inAnyGroup, List.any_cons, Bool.not_or]
          rw [hmem_iff a ha]
        rw [hfilter]
        have hbest := maxByFirst_mem (GlobalScheduler.conflictScore σ) x
          (rest.filter fun b => GlobalScheduler.assignmentsConflict x b)
        have hdgrp : ∀ b ∈ (x :: rest.filter fun b =>
            GlobalScheduler.assignmentsConflict x b), 0 ≤ b.slot.duration := by
          intro b hb
          rcases List.mem_cons.mp hb with rfl | hb'
          · exact hdx
          · exact hdrest b (List.mem_of_mem_filter hb')
        have hbest' : GlobalScheduler.selectBestAssignmentFromConflict σ x
            (rest.filter fun b => GlobalScheduler.assignmentsConflict x b) ∈
            (x :: rest.filter fun b =>
              GlobalScheduler.assignmentsConflict x b) := hbest
        have hwle : hourWeight τ (GlobalScheduler.selectBestAssignmentFromConflict
            σ x (rest.filter fun b => GlobalScheduler.assignmentsConflict x b)) ≤
            assignedHoursOf (x :: rest.filter fun b =>
              GlobalScheduler.assignmentsConflict x b) τ :=
          hourWeight_le_assignedHoursOf hbest' hdgrp τ
        have hih := ih (rest.filter fun b =>
          !GlobalScheduler.assignmentsConflict x b) hlenrem hdrem σ τ
        have hpart := assignedHoursOf_filter_partition rest
          (fun b => GlobalScheduler.assignmentsConflict x b) τ
        rw [assignedHoursOf_cons x
          (rest.filter fun b => GlobalScheduler.assignmentsConflict x b) τ]
          at hwle
        rw [assignedHoursOf_append, assignedHoursOf_cons, assignedHoursOf_cons]
        have h0 : assignedHoursOf ([] : List ScheduleAssignment) τ = 0 := rfl
        omega
      · rw [if_neg hbig, List.nil_append]
        have hfe : (rest.filter fun b =>
            GlobalScheduler.assignmentsConflict x b) = [] := by
          rw [← List.length_eq_zero]
          simp only [List.length_cons] at hbig
          omega
        have hall : ∀ a ∈ rest,
            GlobalScheduler.assignmentsConflict x a = false := by
          intro a ha
          have := List.filter_eq_nil_iff.mp hfe a ha
          simpa using this
        have hrem : (rest.filter fun b =>
            !GlobalScheduler.assignmentsConflict x b) = rest :=
          List.filter_eq_self.mpr fun a ha => by simp [hall a ha]
        rw [hrem]
        have hpx : (!GlobalScheduler.inAnyGroup
            (GlobalScheduler.groupConflictingAssignments rest) x) = true := by
          cases hin : GlobalScheduler.inAnyGroup
              (GlobalScheduler.groupConflictingAssignments rest) x with
          | false => rfl
          | true =>
            exfalso
            simp only [GlobalScheduler.inAnyGroup, List.any_eq_true] at hin
            obtain ⟨grp, hgrp, hm⟩ := hin
            simp only [memPy, List.any_eq_true] at hm
            obtain ⟨b, hb, hpy⟩ := hm
            have hbrest := mem_of_mem_groupConflicting hgrp hb
            have : GlobalScheduler.assignmentsConflict x b = true := by
              rw [← conflict_congr_right hpy]
              exact conflict_self x
            rw [hall b hbrest] at this
            exact Bool.false_ne_true this
        have hfx : (x :: rest).filter (fun a => !GlobalScheduler.inAnyGroup
            (GlobalScheduler.groupConflictingAssignments rest) a) =
            x :: rest.filter (fun a => !GlobalScheduler.inAnyGroup
              (GlobalScheduler.groupConflictingAssignments rest) a) := by
          rw [List.filter_cons]
          simp [hpx]
        rw [hfx]
        have hih := ih rest (by simp only [List.length_cons] at hl; omega)
          hdrest σ τ
        rw [assignedHoursOf_cons, assignedHoursOf_cons]
        omega

theorem resolveGlobal_hours_le (σ : AState)
    (assigns : List ScheduleAssignment) (τ : String)
    (hd : ∀ a ∈ assigns, 0 ≤ a.slot.duration) :
    assignedHoursOf (GlobalScheduler.resolveConflictsGlobal σ assigns).1 τ ≤
      assignedHoursOf assigns τ := by
  unfold GlobalScheduler.resolveConflictsGlobal
  rw [assignedHoursOf_append]
  exact resolveGlobal_hours_le_aux assigns.length assigns le_rfl hd σ τ

/-! The greedy per-TA pass keeps every TA within its weekly-hours budget:
`_schedule_greedy` re-reads `get_remaining_capacity()` for each TA and
assigns at most `remaining // 2` two-hour slots. -/

theorem takeSlot_foldl_spec (ta : TA) (course : Course) :
    ∀ (combo : List TimeSlot)
      (acc : List ScheduleAssignment × List TimeSlot × List TimeSlot),
    ∃ delta : List TimeSlot,
      (combo.foldl (CourseScheduler.takeSlot ta course) acc).1 =
        acc.1 ++ delta.map (fun slot => ⟨ta, slot, course⟩) ∧
      (combo.foldl (CourseScheduler.takeSlot ta course) acc).2.1 =
        acc.2.1 ++ delta ∧
      delta.length ≤ combo.length ∧ ∀ s ∈ delta, s ∈ combo := by
  intro combo
  induction combo with
  | nil => exact fun acc => ⟨[], by simp, by simp, by simp, by simp⟩
  | cons c cs ih =>
    intro acc
    rw [List.foldl_cons]
    by_cases hc : c ∈ acc.2.2
    · have hstep : CourseScheduler.takeSlot ta course acc c =
          (acc.1 ++ [⟨ta, c, course⟩], acc.2.1 ++ [c], acc.2.2.erase c) := by
        unfold CourseScheduler.takeSlot
        rw [if_pos hc]
      rw [hstep]
      obtain ⟨delta, h1, h2, h3, h4⟩ :=
        ih (acc.1 ++ [⟨ta, c, course⟩], acc.2.1 ++ [c], acc.2.2.erase c)
      refine ⟨c :: delta, ?_, ?_, ?_, ?_⟩
      · rw [h1]
        simp
      · rw [h2]
        simp
      · simpa using Nat.succ_le_succ h3
      · intro s hs
        rcases List.mem_cons.mp hs with rfl | hs'
        · exact List.mem_cons_self _ _
        · exact List.mem_cons_of_mem _ (h4 s hs')
    · have hstep : CourseScheduler.takeSlot ta course acc c = acc := by
        unfold CourseScheduler.takeSlot
        rw [if_neg hc]
      rw [hstep]
      obtain ⟨delta, h1, h2, h3, h4⟩ := ih acc
      exact ⟨delta, h1, h2, le_trans h3 (Nat.le_succ _),
        fun s hs => List.mem_cons_of_mem _ (h4 s hs)⟩

theorem selectBestCombination_mem (ta : TA)
    {combos : List (List TimeSlot)} (h : combos ≠ []) :
    CourseScheduler.selectBestCombination ta combos ∈ combos := by
  cases combos with
  | nil => exact absurd rfl h
  | cons c rest =>
    simp only [CourseScheduler.selectBestCombination]
    exact maxByFirst_mem _ c rest

theorem sum_map_duration_two {l : List TimeSlot}
    (h : ∀ s ∈ l, s.duration = 2) :
    (l.map TimeSlot.duration).sum = 2 * (l.length : Int) := by
  induction l with
  | nil => simp
  | cons s rest ih =>
    rw [List.map_cons, List.sum_cons, h s (List.mem_cons_self s rest),
      ih fun s' hs' => h s' (List.mem_cons_of_mem s hs')]
    simp only [List.length_cons]
    push_cast
    ring

theorem assignedHoursOf_map_mk (ta : TA) (course : Course)
    (slots : List TimeSlot) (τ : String) :
    assignedHoursOf (slots.map fun slot => ⟨ta, slot, course⟩) τ =
      if ta.id = τ then (slots.map TimeSlot.duration).sum else 0 := by
  induction slots with
  | nil => simp [assignedHoursOf]
  | cons s rest ih =>
    rw [List.map_cons, assignedHoursOf_cons, ih]
    unfold hourWeight
    by_cases h : ta.id = τ
    · rw [if_pos h, if_pos h, if_pos h, List.map_cons, List.sum_cons]
    · rw [if_neg h, if_neg h, if_neg h]
      simp

theorem assignedHoursOf_eq_zero_of_ids {delta : List ScheduleAssignment}
    {τ : String} (h : ∀ a ∈ delta, a.ta.id ≠ τ) :
    assignedHoursOf delta τ = 0 := by
  unfold assignedHoursOf
  rw [List.filter_eq_nil_iff.mpr fun a ha => by simp [h a ha]]
  rfl

theorem greedyStep_spec (pol : SchedulingPolicies) (course : Course)
    (st : CourseScheduler.PassState) (ta : TA)
    (hfresh : alookup (taCourseMap st.σ ta.id) course.id = none)
    (hdur : ∀ s ∈ course.requiredSlots, s.duration = 2) :
    ∃ delta : List ScheduleAssignment,
      (CourseScheduler.greedyStep pol course st ta).assignments =
        st.assignments ++ delta ∧
      (∀ a ∈ delta, a.ta.id = ta.id ∧ a.slot.duration = 2) ∧
      totalAssignedHours (CourseScheduler.greedyStep pol course st ta).σ ta.id ≤
        max (totalAssignedHours st.σ ta.id) ta.maxWeeklyHours ∧
      (∀ τ, totalAssignedHours (CourseScheduler.greedyStep pol course st ta).σ τ =
        totalAssignedHours st.σ τ + assignedHoursOf delta τ) ∧
      (∀ τ (e : String × List TimeSlot),
        e ∈ taCourseMap (CourseScheduler.greedyStep pol course st ta).σ τ →
        e ∈ taCourseMap st.σ τ ∨ e.1 = course.id) ∧
      (∀ τ, τ ≠ ta.id →
        taCourseMap (CourseScheduler.greedyStep pol course st ta).σ τ =
          taCourseMap st.σ τ) := by
  by_cases h1 : remainingCapacity ta st.σ < 2
  · have hst : CourseScheduler.greedyStep pol course st ta = st := by
      unfold CourseScheduler.greedyStep
      rw [if_pos h1]
    exact ⟨[], by rw [hst]; simp, by simp,
      by rw [hst]; exact le_max_left _ _,
      fun τ => by rw [hst]; simp [assignedHoursOf],
      fun τ e he => by rw [hst] at he; exact Or.inl he,
      fun τ _ => by rw [hst]⟩
  · by_cases h2 : (PolicyValidator.getValidSlotCombinations pol ta st.σ course
        (CourseScheduler.maxAssignableSlots ta st.σ)).isEmpty = true
    · have hst : CourseScheduler.greedyStep pol course st ta = st := by
        unfold CourseScheduler.greedyStep
        rw [if_neg h1, if_pos h2]
      exact ⟨[], by rw [hst]; simp, by simp,
        by rw [hst]; exact le_max_left _ _,
        fun τ => by rw [hst]; simp [assignedHoursOf],
        fun τ e he => by rw [hst] at he; exact Or.inl he,
        fun τ _ => by rw [hst]⟩
    · have hA : (CourseScheduler.greedyStep pol course st ta).assignments =
          st.assignments ++ (CourseScheduler.greedyTake pol course st ta).1 := by
        unfold CourseScheduler.greedyStep
        rw [if_neg h1, if_neg h2]
      have hS : (CourseScheduler.greedyStep pol course st ta).σ =
          setCourseSlots st.σ ta.id course.id
            ((CourseScheduler.greedyTake pol course st ta).2.1) := by
        unfold CourseScheduler.greedyStep
        rw [if_neg h1, if_neg h2]
      have hgtd : CourseScheduler.greedyTake pol course st ta =
          (CourseScheduler.selectBestCombination ta
            (PolicyValidator.getValidSlotCombinations pol ta st.σ course
              (CourseScheduler.maxAssignableSlots ta st.σ))).foldl
            (CourseScheduler.takeSlot ta course) ([], [], st.unassigned) := rfl
      obtain ⟨newSlots, hn1, hn2, hn3, hn4⟩ :=
        takeSlot_foldl_spec ta course
          (CourseScheduler.selectBestCombination ta
            (PolicyValidator.getValidSlotCombinations pol ta st.σ course
              (CourseScheduler.maxAssignableSlots ta st.σ)))
          ([], [], st.unassigned)
      have hgt1 : (CourseScheduler.greedyTake pol course st ta).1 =
          newSlots.map (fun slot => ⟨ta, slot, course⟩) := by
        rw [hgtd, hn1]
        simp
      have hgt2 : (CourseScheduler.greedyTake pol course st ta).2.1 =
          newSlots := by
        rw [hgtd, hn2]
        simp
      have hne : PolicyValidator.getValidSlotCombinations pol ta st.σ course
          (CourseScheduler.maxAssignableSlots ta st.σ) ≠ [] := by
        intro he
        rw [he] at h2
        exact h2 rfl
      have hbest := selectBestCombination_mem ta hne
      have hsubR : ∀ s ∈ newSlots, s ∈ course.requiredSlots :=
        fun s hs => mem_getValid_subset hbest s (hn4 s hs)
      have hdurN : ∀ s ∈ newSlots, s.duration = 2 :=
        fun s hs => hdur s (hsubR s hs)
      have hsum : (newSlots.map TimeSlot.duration).sum =
          2 * (newSlots.length : Int) := sum_map_duration_two hdurN
      have hlenI : ((CourseScheduler.selectBestCombination ta
          (PolicyValidator.getValidSlotCombinations pol ta st.σ course
            (CourseScheduler.maxAssignableSlots ta st.σ))).length : Int) ≤
          CourseScheduler.maxAssignableSlots ta st.σ := mem_getValid_length hbest
      have hcast : (newSlots.length : Int) ≤
          ((CourseScheduler.selectBestCombination ta
            (PolicyValidator.getValidSlotCombinations pol ta st.σ course
              (CourseScheduler.maxAssignableSlots ta st.σ))).length : Int) :=
        Int.ofNat_le.mpr hn3
      have hfd : 2 * CourseScheduler.maxAssignableSlots ta st.σ ≤
          remainingCapacity ta st.σ := two_fdiv_le _
      have hremdef : remainingCapacity ta st.σ =
          ta.maxWeeklyHours - totalAssignedHours st.σ ta.id := rfl
      refine ⟨newSlots.map (fun slot => ⟨ta, slot, course⟩), ?_, ?_, ?_, ?_, ?_, ?_⟩
      · rw [hA, hgt1]
      · intro a ha
        rw [List.mem_map] at ha
        obtain ⟨s, hs, rfl⟩ := ha
        exact ⟨rfl, hdurN s hs⟩
      · rw [hS, hgt2, totalAssignedHours_set_self _ _ _ _ hfresh, hsum]
        refine le_trans ?_ (le_max_right _ _)
        omega
      · intro τ
        by_cases hτ : τ = ta.id
        · subst hτ
          rw [hS, hgt2, totalAssignedHours_set_self _ _ _ _ hfresh,
            assignedHoursOf_map_mk, if_pos rfl]
        · rw [hS, hgt2, totalAssignedHours_set_ne _ _ _ _ _ hτ,
            assignedHoursOf_map_mk, if_neg fun he => hτ he.symm]
          ring
      · intro τ e he
        rw [hS, hgt2] at he
        rcases mem_taCourseMap_set _ _ _ _ _ _ he with ⟨_, he'⟩ | h'
        · exact Or.inr (by rw [he'])
        · exact Or.inl h'
      · intro τ hτ
        rw [hS]
        exact taCourseMap_set_ne _ _ _ _ _ hτ

theorem greedyFold_spec (pol : SchedulingPolicies) (course : Course)
    (cap : String → Int)
    (hdur : ∀ s ∈ course.requiredSlots, s.duration = 2) :
    ∀ (tas : List TA) (st : CourseScheduler.PassState),
    (tas.map TA.id).Nodup →
    (∀ ta ∈ tas, cap ta.id = ta.maxWeeklyHours) →
    (∀ τ, totalAssignedHours st.σ τ ≤ cap τ) →
    (∀ ta ∈ tas, alookup (taCourseMap st.σ ta.id) course.id = none) →
    ∃ delta : List ScheduleAssignment,
      (tas.foldl (CourseScheduler.greedyStep pol course) st).assignments =
        st.assignments ++ delta ∧
      (∀ a ∈ delta, a.slot.duration = 2) ∧
      (∀ τ, totalAssignedHours
        (tas.foldl (CourseScheduler.greedyStep pol course) st).σ τ ≤ cap τ) ∧
      (∀ τ, totalAssignedHours
        (tas.foldl (CourseScheduler.greedyStep pol course) st).σ τ =
        totalAssignedHours st.σ τ + assignedHoursOf delta τ) ∧
      (∀ τ (e : String × List TimeSlot),
        e ∈ taCourseMap
          (tas.foldl (CourseScheduler.greedyStep pol course) st).σ τ →
        e ∈ taCourseMap st.σ τ ∨ e.1 = course.id) := by
  intro tas
  induction tas with
  | nil =>
    intro st _ _ hσ _
    exact ⟨[], by simp, by simp, hσ, fun τ => by simp [assignedHoursOf],
      fun τ e he => Or.inl he⟩
  | cons ta tas' ih =>
    intro st hnd hcapT hσ hfresh
    rw [List.foldl_cons]
    obtain ⟨d0, hA0, hB0, hC0, hD0, hK0, hP0⟩ :=
      greedyStep_spec pol course st ta
        (hfresh ta (List.mem_cons_self ta tas')) hdur
    have hnd' : (tas'.map TA.id).Nodup := by
      rw [List.map_cons, List.nodup_cons] at hnd
      exact hnd.2
    have hhd : ta.id ∉ tas'.map TA.id := by
      rw [List.map_cons, List.nodup_cons] at hnd
      exact hnd.1
    have hσ₁ : ∀ τ,
        totalAssignedHours (CourseScheduler.greedyStep pol course st ta).σ τ ≤
          cap τ := by
      intro τ
      by_cases hτ : τ = ta.id
      · subst hτ
        exact le_trans hC0 (max_le (hσ ta.id)
          (le_of_eq (hcapT ta (List.mem_cons_self ta tas')).symm))
      · have hz : assignedHoursOf d0 τ = 0 :=
          assignedHoursOf_eq_zero_of_ids fun a ha => by
            rw [(hB0 a ha).1]
            exact fun he => hτ he.symm
        rw [hD0 τ, hz]
        simpa using hσ τ
    have hfresh₁ : ∀ ta' ∈ tas',
        alookup (taCourseMap
          (CourseScheduler.greedyStep pol course st ta).σ ta'.id)
          course.id = none := by
      intro ta' hta'
      have hne : ta'.id ≠ ta.id := fun he =>
        hhd (he ▸ List.mem_map_of_mem TA.id hta')
      rw [hP0 ta'.id hne]
      exact hfresh ta' (List.mem_cons_of_mem ta hta')
    obtain ⟨d1, hA1, hB1, hC1, hD1, hK1⟩ := ih
      (CourseScheduler.greedyStep pol course st ta) hnd'
      (fun ta' h => hcapT ta' (List.mem_cons_of_mem ta h)) hσ₁ hfresh₁
    refine ⟨d0 ++ d1, ?_, ?_, hC1, ?_, ?_⟩
    · rw [hA1, hA0, List.append_assoc]
    · intro a ha
      rcases List.mem_append.mp ha with h' | h'
      · exact (hB0 a h').2
      · exact hB1 a h'
    · intro τ
      rw [hD1 τ, hD0 τ, assignedHoursOf_append]
      ring
    · intro τ e he
      rcases hK1 τ e he with h' | h'
      · exact hK0 τ e h'
      · exact Or.inr h'

theorem scheduleCourse_empty (pol : SchedulingPolicies) (course : Course)
    (σ : AState)
    (hne : (course.assignedTAs.isEmpty || course.requiredSlots.isEmpty) = true) :
    CourseScheduler.scheduleCourse pol course σ =
      ([], ["No TAs assigned or no slots defined for course"], σ) := by
  unfold CourseScheduler.scheduleCourse
  rw [if_pos hne]

theorem scheduleCourse_greedy (pol : SchedulingPolicies) (course : Course)
    (σ : AState) (hf : pol.fairnessMode = false)
    (hne : (course.assignedTAs.isEmpty || course.requiredSlots.isEmpty) = false) :
    (CourseScheduler.scheduleCourse pol course σ).1 =
      (CourseScheduler.scheduleGreedy pol course course.requiredSlots σ).assignments ∧
    (CourseScheduler.scheduleCourse pol course σ).2.2 =
      (CourseScheduler.scheduleGreedy pol course course.requiredSlots σ).σ := by
  unfold CourseScheduler.scheduleCourse
  rw [if_neg (by rw [hne]; exact Bool.false_ne_true), if_neg (by
    rw [hf]; exact Bool.false_ne_true)]
  exact ⟨rfl, rfl⟩

theorem scheduleCourse_spec (pol : SchedulingPolicies) (course : Course)
    (σ : AState) (cap : String → Int)
    (hf : pol.fairnessMode = false)
    (hdur : ∀ s ∈ course.requiredSlots, s.duration = 2)
    (htid : (course.assignedTAs.map TA.id).Nodup)
    (hcapC : ∀ ta ∈ course.assignedTAs, cap ta.id = ta.maxWeeklyHours)
    (hσ : ∀ τ, totalAssignedHours σ τ ≤ cap τ)
    (hfresh : ∀ τ, alookup (taCourseMap σ τ) course.id = none) :
    (∀ a ∈ (CourseScheduler.scheduleCourse pol course σ).1,
      a.slot.duration = 2) ∧
    (∀ τ, totalAssignedHours
      (CourseScheduler.scheduleCourse pol course σ).2.2 τ ≤ cap τ) ∧
    (∀ τ, totalAssignedHours
      (CourseScheduler.scheduleCourse pol course σ).2.2 τ =
      totalAssignedHours σ τ +
        assignedHoursOf (CourseScheduler.scheduleCourse pol course σ).1 τ) ∧
    (∀ τ (e : String × List TimeSlot),
      e ∈ taCourseMap (CourseScheduler.scheduleCourse pol course σ).2.2 τ →
      e ∈ taCourseMap σ τ ∨ e.1 = course.id) := by
  by_cases hne : (course.assignedTAs.isEmpty ||
      course.requiredSlots.isEmpty) = true
  · rw [scheduleCourse_empty pol course σ hne]
    exact ⟨by simp, hσ, fun τ => by simp [assignedHoursOf],
      fun τ e he => Or.inl he⟩
  · have hne' : (course.assignedTAs.isEmpty ||
        course.requiredSlots.isEmpty) = false := by
      cases h : (course.assignedTAs.isEmpty || course.requiredSlots.isEmpty)
      · rfl
      · exact absurd h hne
    obtain ⟨hc1, hc2⟩ := scheduleCourse_greedy pol course σ hf hne'
    obtain ⟨delta, hA, hB, hC, hD, hK⟩ := greedyFold_spec pol course cap hdur
      course.assignedTAs
      { assignments := [], violations := [],
        unassigned := course.requiredSlots, σ := σ }
      htid hcapC hσ (fun ta _ => hfresh ta.id)
    have hgr : CourseScheduler.scheduleGreedy pol course
        course.requiredSlots σ =
        course.assignedTAs.foldl (CourseScheduler.greedyStep pol course)
          { assignments := [], violations := [],
            unassigned := course.requiredSlots, σ := σ } := rfl
    rw [hc1, hc2, hgr]
    refine ⟨?_, hC, ?_, hK⟩
    · intro a ha
      rw [hA] at ha
      exact hB a (by simpa using ha)
    · intro τ
      rw [hD τ, hA]
      simp

theorem globalFold_spec (pol : SchedulingPolicies) (cap : String → Int)
    (hf : pol.fairnessMode = false) :
    ∀ (cs : List Course)
      (acc : List ScheduleAssignment × List String ×
        List (Course × TimeSlot) × AState),
    (∀ c ∈ cs, ∀ s ∈ c.requiredSlots, s.duration = 2) →
    (cs.map Course.id).Nodup →
    (∀ c ∈ cs, (c.assignedTAs.map TA.id).Nodup) →
    (∀ c ∈ cs, ∀ ta ∈ c.assignedTAs, cap ta.id = ta.maxWeeklyHours) →
    (∀ τ, totalAssignedHours acc.2.2.2 τ ≤ cap τ) →
    (∀ τ, assignedHoursOf acc.1 τ = totalAssignedHours acc.2.2.2 τ) →
    (∀ τ (e : String × List TimeSlot), e ∈ taCourseMap acc.2.2.2 τ →
      e.1 ∉ cs.map Course.id) →
    (∀ a ∈ acc.1, 0 ≤ a.slot.duration) →
    (∀ τ, totalAssignedHours
      (cs.foldl (GlobalScheduler.globalStep pol) acc).2.2.2 τ ≤ cap τ) ∧
    (∀ τ, assignedHoursOf
      (cs.foldl (GlobalScheduler.globalStep pol) acc).1 τ =
      totalAssignedHours
        (cs.foldl (GlobalScheduler.globalStep pol) acc).2.2.2 τ) ∧
    (∀ a ∈ (cs.foldl (GlobalScheduler.globalStep pol) acc).1,
      0 ≤ a.slot.duration) := by
  intro cs
  induction cs with
  | nil =>
    intro acc _ _ _ _ hσ hledger _ hdurA
    exact ⟨hσ, hledger, hdurA⟩
  | cons c cs' ih =>
    intro acc hdur hcid htid hcapC hσ hledger hkeys hdurA
    rw [List.foldl_cons]
    have h1 : (GlobalScheduler.globalStep pol acc c).1 =
        acc.1 ++ (CourseScheduler.scheduleCourse pol c acc.2.2.2).1 := rfl
    have h4 : (GlobalScheduler.globalStep pol acc c).2.2.2 =
        (CourseScheduler.scheduleCourse pol c acc.2.2.2).2.2 := rfl
    have hfreshc : ∀ τ, alookup (taCourseMap acc.2.2.2 τ) c.id = none := by
      intro τ
      apply alookup_eq_none
      intro e he
      have := hkeys τ e he
      rw [List.map_cons] at this
      exact fun hek => this (hek ▸ List.mem_cons_self _ _)
    obtain ⟨sB, sC, sD, sK⟩ := scheduleCourse_spec pol c acc.2.2.2 cap hf
      (hdur c (List.mem_cons_self c cs'))
      (htid c (List.mem_cons_self c cs'))
      (hcapC c (List.mem_cons_self c cs')) hσ hfreshc
    have hcidnd : c.id ∉ cs'.map Course.id := by
      rw [List.map_cons, List.nodup_cons] at hcid
      exact hcid.1
    have hcid' : (cs'.map Course.id).Nodup := by
      rw [List.map_cons, List.nodup_cons] at hcid
      exact hcid.2
    have hσ₁ : ∀ τ, totalAssignedHours
        (GlobalScheduler.globalStep pol acc c).2.2.2 τ ≤ cap τ := by
      intro τ
      rw [h4]
      exact sC τ
    have hledger₁ : ∀ τ, assignedHoursOf
        (GlobalScheduler.globalStep pol acc c).1 τ =
        totalAssignedHours (GlobalScheduler.globalStep pol acc c).2.2.2 τ := by
      intro τ
      rw [h1, h4, assignedHoursOf_append, hledger τ, sD τ]
    have hkeys₁ : ∀ τ (e : String × List TimeSlot),
        e ∈ taCourseMap (GlobalScheduler.globalStep pol acc c).2.2.2 τ →
        e.1 ∉ cs'.map Course.id := by
      intro τ e he
      rw [h4] at he
      rcases sK τ e he with hold | hcide
      · have := hkeys τ e hold
        rw [List.map_cons] at this
        exact fun hin => this (List.mem_cons_of_mem _ hin)
      · rw [hcide]
        exact hcidnd
    have hdurA₁ : ∀ a ∈ (GlobalScheduler.globalStep pol acc c).1,
        0 ≤ a.slot.duration := by
      intro a ha
      rw [h1] at ha
      rcases List.mem_append.mp ha with h' | h'
      · exact hdurA a h'
      · rw [sB a h']
        decide
    exact ih (GlobalScheduler.globalStep pol acc c)
      (fun c' h => hdur c' (List.mem_cons_of_mem c h)) hcid'
      (fun c' h => htid c' (List.mem_cons_of_mem c h))
      (fun c' h => hcapC c' (List.mem_cons_of_mem c h))
      hσ₁ hledger₁ hkeys₁ hdurA₁

/-- **C1 (amended).**  On the greedy path (`fairness_mode = false`) the
capacity invariant does hold — unconditionally on the outcome, so in
particular whenever `success = true`: for uniform two-hour slots, distinct
course ids, per-course distinct TA ids, and TA records consistent across
courses (`cap` maps each TA id to its nonnegative `max_weekly_hours`), every
TA's total assigned hours in the schedule produced by
`schedule_all_courses` — conflict resolution included — stays within
`max_weekly_hours`.  The fairness path violates the invariant
(see the C1 counterexample). -/
theorem C1_capacity_greedy (pol : SchedulingPolicies) (courses : List Course)
    (cap : String → Int)
    (hf : pol.fairnessMode = false)
    (hdur : ∀ c ∈ courses, ∀ s ∈ c.requiredSlots, s.duration = 2)
    (hcid : (courses.map Course.id).Nodup)
    (htid : ∀ c ∈ courses, (c.assignedTAs.map TA.id).Nodup)
    (hcap : ∀ c ∈ courses, ∀ ta ∈ c.assignedTAs,
      cap ta.id = ta.maxWeeklyHours)
    (hcap0 : ∀ τ, 0 ≤ cap τ) :
    ∀ c ∈ courses, ∀ ta ∈ c.assignedTAs,
      assignedHoursOf
        (GlobalScheduler.scheduleAllCourses pol
          courses).1.globalSchedule.assignments ta.id ≤ ta.maxWeeklyHours := by
  intro c hc ta hta
  by_cases hemp : courses.isEmpty = true
  · rw [List.isEmpty_iff] at hemp
    subst hemp
    exact absurd hc (List.not_mem_nil c)
  · have hperm : List.Perm (GlobalScheduler.sortCoursesByPriority [] courses)
        courses := List.perm_insertionSort _ courses
    obtain ⟨G1, G2, G3⟩ := globalFold_spec pol cap hf
      (GlobalScheduler.sortCoursesByPriority [] courses) ([], [], [], [])
      (fun c' h => hdur c' (hperm.mem_iff.mp h))
      ((hperm.map Course.id).nodup_iff.mpr hcid)
      (fun c' h => htid c' (hperm.mem_iff.mp h))
      (fun c' h => hcap c' (hperm.mem_iff.mp h))
      (fun τ => hcap0 τ)
      (fun τ => rfl)
      (fun τ e he => absurd he (List.not_mem_nil e))
      (fun a ha => absurd ha (List.not_mem_nil a))
    have hgp : GlobalScheduler.globalPass pol courses =
        (GlobalScheduler.sortCoursesByPriority [] courses).foldl
          (GlobalScheduler.globalStep pol) ([], [], [], []) := rfl
    have hbound : assignedHoursOf (GlobalScheduler.globalPass pol courses).1
        ta.id ≤ ta.maxWeeklyHours := by
      rw [hgp, G2 ta.id]
      exact le_trans (G1 ta.id) (le_of_eq (hcap c hc ta hta))
    have hdurAss : ∀ a ∈ (GlobalScheduler.globalPass pol courses).1,
        0 ≤ a.slot.duration := by
      rw [hgp]
      exact G3
    have hemp' : courses.isEmpty = false := by
      cases h : courses.isEmpty
      · rfl
      · exact absurd h hemp
    have hsa : (GlobalScheduler.scheduleAllCourses pol
        courses).1.globalSchedule.assignments =
        (if !(detectConflicts (GlobalScheduler.globalPass pol
            courses).1).isEmpty then
          (GlobalScheduler.resolveConflictsGlobal
            (GlobalScheduler.globalPass pol courses).2.2.2
            (GlobalScheduler.globalPass pol courses).1).1
        else (GlobalScheduler.globalPass pol courses).1) := by
      unfold GlobalScheduler.scheduleAllCourses
      rw [if_neg (by rw [hemp']; exact Bool.false_ne_true)]
    rw [hsa]
    by_cases hdc : (!(detectConflicts (GlobalScheduler.globalPass pol
        courses).1).isEmpty) = true
    · rw [if_pos hdc]
      exact le_trans (resolveGlobal_hours_le _ _ _ hdurAss) hbound
    · rw [if_neg hdc]
      exact hbound

theorem C1_capacity_greedy_witness :
    assignedHoursOf (GlobalScheduler.scheduleAllCourses Ex.polGreedy
      [Ex.courseFour]).1.globalSchedule.assignments Ex.taCap2.id ≤
      Ex.taCap2.maxWeeklyHours :=
  C1_capacity_greedy Ex.polGreedy [Ex.courseFour] (fun _ => 2) rfl
    (by decide) (by decide) (by decide) (by decide)
    (fun _ => by show (0 : Int) ≤ 2; decide)
    Ex.courseFour (by decide) Ex.taCap2 (by decide)

end GIU
